import Mathlib

/-!
Verification of the change-tracked concurrent ingestion engine of the F1
repository (`src/f1/flows/flows_utils.py` and `src/f1/flows/f1db/scrape.py`).

The Python code is shallowly embedded: pandas cell values become the `Val`
inductive, a SQLAlchemy ORM object (an attribute dictionary) becomes an
association list `Obj`, the store (one table) becomes `List Obj`, and the
fingerprint `hashlib.sha384(...).hexdigest()` is implemented bit-faithfully
over `Nat`.
-/

namespace F1

/-- Scalar values held in a pandas cell / ORM attribute.
`vnan` is the float NaN sentinel (`np.nan`), `vnull` is Python `None`,
`vfloat` carries the decimal representation Python would print for the float,
`vtime` is an abstract timestamp (`pd.to_datetime("now")` result). -/
inductive Val where
  | vnull
  | vnan
  | vint (i : Int)
  | vfloat (r : String)
  | vstr (s : String)
  | vtime (t : Nat)
deriving DecidableEq, Repr

/-- Python `str(value)` for the values that can appear in a raw data row:
`str(None) = "None"`, `str(np.nan) = "nan"`, integers and floats print their
decimal representation, strings print themselves. -/
def Val.pyStr : Val → String
  | .vnull => "None"
  | .vnan => "nan"
  | .vint i => toString i
  | .vfloat r => r
  | .vstr s => s
  | .vtime t => "Timestamp(" ++ toString t ++ ")"

/-- Python `==` on these scalars: `None == None` is `True`, `nan == nan` is
`False`, same-type values compare by value.  (Cross-type numeric equality is
never exercised by the ingestion code on the metadata columns it compares.) -/
def Val.pyEq : Val → Val → Bool
  | .vnull, .vnull => true
  | .vnan, _ => false
  | _, .vnan => false
  | .vint i, .vint j => i == j
  | .vfloat r, .vfloat q => r == q
  | .vstr s, .vstr u => s == u
  | .vtime t, .vtime u => t == u
  | _, _ => false

/-- SQL `=` as generated by `filter_by`: a NULL (or NaN) operand never
matches; otherwise same-type values compare by value. -/
def Val.sqlEq : Val → Val → Bool
  | .vnull, _ => false
  | _, .vnull => false
  | .vnan, _ => false
  | _, .vnan => false
  | .vint i, .vint j => i == j
  | .vfloat r, .vfloat q => r == q
  | .vstr s, .vstr u => s == u
  | .vtime t, .vtime u => t == u
  | _, _ => false

/-- UTF-8 encoding of one character (code point), as `str.encode("utf-8")`. -/
def utf8Bytes (c : Char) : List Nat :=
  let n := c.toNat
  if n < 0x80 then [n]
  else if n < 0x800 then [0xC0 ||| (n >>> 6), 0x80 ||| (n &&& 0x3F)]
  else if n < 0x10000 then
    [0xE0 ||| (n >>> 12), 0x80 ||| ((n >>> 6) &&& 0x3F), 0x80 ||| (n &&& 0x3F)]
  else
    [0xF0 ||| (n >>> 18), 0x80 ||| ((n >>> 12) &&& 0x3F),
     0x80 ||| ((n >>> 6) &&& 0x3F), 0x80 ||| (n &&& 0x3F)]

/-- UTF-8 bytes of a string. -/
def strBytes (s : String) : List Nat := s.toList.flatMap utf8Bytes

/-! SHA-384 (the `hashlib.sha384` used for `dwh_hash`), implemented over
`Nat` with explicit reduction modulo `2 ^ 64`. -/

/-- Addition of 64-bit words. -/
def wadd (a b : Nat) : Nat := (a + b) % 2 ^ 64

/-- Right rotation of a 64-bit word. -/
def rotr (x n : Nat) : Nat := ((x >>> n) ||| (x <<< (64 - n))) % 2 ^ 64

/-- Bitwise complement of a 64-bit word. -/
def wnot (x : Nat) : Nat := x ^^^ (2 ^ 64 - 1)

/-- The eight 64-bit chaining words of the SHA-512 family. -/
structure H8 where
  a : Nat
  b : Nat
  c : Nat
  d : Nat
  e : Nat
  f : Nat
  g : Nat
  h : Nat
deriving DecidableEq, Repr

/-- SHA-384 initial hash value (FIPS 180-4). -/
def sha384IV : H8 :=
  ⟨14680500436340154072, 7105036623409894663, 10473403895298186519,
   1526699215303891257, 7436329637833083697, 10282925794625328401,
   15784041429090275239, 5167115440072839076⟩

/-- The eighty SHA-512 round constants (FIPS 180-4). -/
def sha512K : List Nat :=
  [4794697086780616226, 8158064640168781261, 13096744586834688815,
   16840607885511220156, 4131703408338449720, 6480981068601479193,
   10538285296894168987, 12329834152419229976, 15566598209576043074,
   1334009975649890238, 2608012711638119052, 6128411473006802146,
   8268148722764581231, 9286055187155687089, 11230858885718282805,
   13951009754708518548, 16472876342353939154, 17275323862435702243,
   1135362057144423861, 2597628984639134821, 3308224258029322869,
   5365058923640841347, 6679025012923562964, 8573033837759648693,
   10970295158949994411, 12119686244451234320, 12683024718118986047,
   13788192230050041572, 14330467153632333762, 15395433587784984357,
   489312712824947311, 1452737877330783856, 2861767655752347644,
   3322285676063803686, 5560940570517711597, 5996557281743188959,
   7280758554555802590, 8532644243296465576, 9350256976987008742,
   10552545826968843579, 11727347734174303076, 12113106623233404929,
   14000437183269869457, 14369950271660146224, 15101387698204529176,
   15463397548674623760, 17586052441742319658, 1182934255886127544,
   1847814050463011016, 2177327727835720531, 2830643537854262169,
   3796741975233480872, 4115178125766777443, 5681478168544905931,
   6601373596472566643, 7507060721942968483, 8399075790359081724,
   8693463985226723168, 9568029438360202098, 10144078919501101548,
   10430055236837252648, 11840083180663258601, 13761210420658862357,
   14299343276471374635, 14566680578165727644, 15097957966210449927,
   16922976911328602910, 17689382322260857208, 500013540394364858,
   748580250866718886, 1242879168328830382, 1977374033974150939,
   2944078676154940804, 3659926193048069267, 4368137639120453308,
   4836135668995329356, 5532061633213252278, 6448918945643986474,
   6902733635092675308, 7801388544844847127]

/-- Message-schedule sigma-0. -/
def ssig0 (x : Nat) : Nat := rotr x 1 ^^^ rotr x 8 ^^^ (x >>> 7)

/-- Message-schedule sigma-1. -/
def ssig1 (x : Nat) : Nat := rotr x 19 ^^^ rotr x 61 ^^^ (x >>> 6)

/-- Round function big-Sigma-0. -/
def bsig0 (x : Nat) : Nat := rotr x 28 ^^^ rotr x 34 ^^^ rotr x 39

/-- Round function big-Sigma-1. -/
def bsig1 (x : Nat) : Nat := rotr x 14 ^^^ rotr x 18 ^^^ rotr x 41

/-- Extend sixteen message words to the eighty-word schedule. -/
def sched (block : List Nat) : List Nat :=
  (List.range 80).foldl
    (fun acc t =>
      if t < 16 then acc ++ [block.getD t 0]
      else
        acc ++ [wadd
          (wadd (wadd (ssig1 (acc.getD (t - 2) 0)) (acc.getD (t - 7) 0))
            (ssig0 (acc.getD (t - 15) 0)))
          (acc.getD (t - 16) 0)])
    []

/-- One SHA-512 round, consuming a round constant plus schedule word. -/
def round512 (st : H8) (k w : Nat) : H8 :=
  let t1 := wadd (wadd (wadd (wadd st.h (bsig1 st.e))
    ((st.e &&& st.f) ^^^ (wnot st.e &&& st.g))) k) w
  let t2 := wadd (bsig0 st.a) ((st.a &&& st.b) ^^^ (st.a &&& st.c) ^^^ (st.b &&& st.c))
  ⟨wadd t1 t2, st.a, st.b, st.c, wadd st.d t1, st.e, st.f, st.g⟩

/-- Compress one 1024-bit block into the chaining state. -/
def compressBlock (st : H8) (block : List Nat) : H8 :=
  let fin := (sha512K.zip (sched block)).foldl (fun s kw => round512 s kw.1 kw.2) st
  ⟨wadd st.a fin.a, wadd st.b fin.b, wadd st.c fin.c, wadd st.d fin.d,
   wadd st.e fin.e, wadd st.f fin.f, wadd st.g fin.g, wadd st.h fin.h⟩

/-- Big-endian 64-bit word from eight bytes. -/
def beWord (bs : List Nat) : Nat := bs.foldl (fun acc x => acc * 256 + x) 0

/-- Split a byte list into big-endian 64-bit words (fueled recursion). -/
def bytesToWords : Nat → List Nat → List Nat
  | 0, _ => []
  | _, [] => []
  | fuel + 1, l => beWord (l.take 8) :: bytesToWords fuel (l.drop 8)

/-- Split a byte list into 128-byte blocks (fueled recursion). -/
def chunks128 : Nat → List Nat → List (List Nat)
  | 0, _ => []
  | _, [] => []
  | fuel + 1, l => l.take 128 :: chunks128 fuel (l.drop 128)

/-- Big-endian 16-byte encoding of the bit length. -/
def lenBytes (n : Nat) : List Nat :=
  (List.range 16).map fun i => n >>> (8 * (15 - i)) % 256

/-- SHA padding: append 0x80, zeros, and the 128-bit message bit length. -/
def padMessage (msg : List Nat) : List Nat :=
  let L := msg.length
  msg ++ [0x80] ++ List.replicate ((128 - (L + 17) % 128) % 128) 0 ++ lenBytes (8 * L)

/-- The final SHA-384 chaining state for a byte message. -/
def sha384Words (msg : List Nat) : H8 :=
  let padded := padMessage msg
  (chunks128 padded.length padded).foldl
    (fun st blk => compressBlock st (bytesToWords 16 blk)) sha384IV

/-- Big-endian bytes of one 64-bit word. -/
def wordBytes (w : Nat) : List Nat :=
  [w >>> 56 % 256, w >>> 48 % 256, w >>> 40 % 256, w >>> 32 % 256,
   w >>> 24 % 256, w >>> 16 % 256, w >>> 8 % 256, w % 256]

/-- The 48-byte SHA-384 digest (first six words of the final state). -/
def sha384Bytes (msg : List Nat) : List Nat :=
  let st := sha384Words msg
  wordBytes st.a ++ wordBytes st.b ++ wordBytes st.c ++ wordBytes st.d ++
    wordBytes st.e ++ wordBytes st.f

/-- Lower-case hexadecimal digit. -/
def hexDigitChar (n : Nat) : Char := ("0123456789abcdef".toList).getD n (Char.ofNat 48)

/-- Lower-case hex string of a byte list, as `hexdigest()`. -/
def bytesToHex (bs : List Nat) : String :=
  String.mk (bs.flatMap fun x => [hexDigitChar (x / 16), hexDigitChar (x % 16)])

/-- hashlib.sha384(s.encode("utf-8")).hexdigest() for a string. -/
def sha384HexOfString (s : String) : String := bytesToHex (sha384Bytes (strBytes s))

/-- A row (or ORM object): an attribute dictionary with string keys.  pandas
column labels and Python attribute names are unique, so association lists
here normally carry pairwise distinct keys. -/
abbrev Obj := List (String × Val)

/-- Attribute lookup on an object: the first entry with the key, `none` for
an absent attribute. -/
def objGet : Obj → String → Option Val
  | [], _ => none
  | kv :: tl, k => if kv.1 == k then some kv.2 else objGet tl k

/-- Python `setattr` / pandas column assignment: overwrite the entry if the
key is present, else append it. -/
def objSet (o : Obj) (k : String) (v : Val) : Obj :=
  if o.any (fun kv => kv.1 == k) then
    o.map (fun kv => if kv.1 == k then (k, v) else kv)
  else o ++ [(k, v)]

/-! The metadata step of `upload_data` (flows_utils.py lines 296-306): the
`dwh_hash` fingerprint is computed from the raw row values first, then the
batch timestamp columns are added, then `df.replace(np.nan: None)` runs. -/

/-- Python string `"|".join(str(value) for value in row.values)`. -/
def pipeJoin (vs : List Val) : String := String.intercalate "|" (vs.map Val.pyStr)

/-- The `dwh_hash` fingerprint of a row's values. -/
def fingerprint (vs : List Val) : String := sha384HexOfString (pipeJoin vs)

/-- The `df.replace(np.nan: None)` normalization on one cell. -/
def nanToNone (v : Val) : Val := if v = .vnan then .vnull else v

/-- One row of the metadata step of `upload_data`: compute `dwh_hash` over
the raw row values, add `dwh_valid_from` and `dwh_modified_at` (both the
batch timestamp `now`; the chained assignment on line 303 assigns its
targets left to right), then replace every NaN cell by None. -/
def addMetadata (now : Nat) (row : Obj) : Obj :=
  let h := fingerprint (row.map Prod.snd)
  let r1 := objSet row "dwh_hash" (Val.vstr h)
  let r2 := objSet (objSet r1 "dwh_valid_from" (Val.vtime now))
    "dwh_modified_at" (Val.vtime now)
  r2.map (fun kv => (kv.1, nanToNone kv.2))

/-! The upsert protocol, `DWHMixin.upsert` (flows_utils.py lines 56-120). -/

/-- The database value of a mapped column: an attribute never assigned reads
back as SQL NULL (e.g. `dwh_valid_to`, which no data row ever carries). -/
def colVal (o : Obj) (k : String) : Val := (objGet o k).getD Val.vnull

/-- The filter generated by `session.query(cls).filter_by(**pk_values)`:
every primary-key column must SQL-equal the extracted value. -/
def pkMatch (pkVals : List (String × Val)) (o : Obj) : Bool :=
  pkVals.all (fun kv => Val.sqlEq (colVal o kv.1) kv.2)

/-- Python `str.startswith`, used for the `dwh_` metadata-column test on
line 96 (spelled so that kernel evaluation can unfold it). -/
def strStartsWith (s pre : String) : Bool := pre.toList.isPrefixOf s.toList

/-- Failure of the upsert body that is not a storage error: `data_row[col]`
raising KeyError (it would escape the `except SQLAlchemyError` handler). -/
inductive UpsertErr where
  | keyError (k : String)
deriving DecidableEq, Repr

instance {α β : Type} [DecidableEq α] [DecidableEq β] : DecidableEq (Except α β) :=
  fun a b =>
    match a, b with
    | Except.ok x, Except.ok y =>
      if h : x = y then isTrue (by rw [h]) else isFalse (by intro he; cases he; exact h rfl)
    | Except.error x, Except.error y =>
      if h : x = y then isTrue (by rw [h]) else isFalse (by intro he; cases he; exact h rfl)
    | Except.ok _, Except.error _ => isFalse (by intro he; cases he)
    | Except.error _, Except.ok _ => isFalse (by intro he; cases he)

/-- Lookup of a Series entry, `data_row[k]`, raising KeyError when absent. -/
def rowGet (dataRow : Obj) (k : String) : Except UpsertErr Val :=
  match objGet dataRow k with
  | some v => Except.ok v
  | none => Except.error (UpsertErr.keyError k)

/-- Line 79: `pk_values = (col: data_row[col] for col in pk_keys)`; the
first missing key raises KeyError. -/
def pkExtract (pkKeys : List String) (dataRow : Obj) :
    Except UpsertErr (List (String × Val)) :=
  match pkKeys with
  | [] => Except.ok []
  | k :: tl => do
    let v ← rowGet dataRow k
    let rest ← pkExtract tl dataRow
    pure ((k, v) :: rest)

/-- Index of the first row accepted by the filter, `.first()` on line 82. -/
def firstIdx (p : Obj → Bool) : List Obj → Option Nat
  | [] => none
  | o :: rest => if p o then some 0 else (firstIdx p rest).map (fun n => n + 1)

/-- Shallow embedding of `DWHMixin.upsert` on one table.  The store is the
table's row list in insertion order; `first()` takes the first match;
`session.add` appends.  Returns the updated store and the reported flag.
Line 99 of the source writes the attribute literally named
`dwh_mofified_at` (sic) — the embedding reproduces that spelling. -/
def upsert (pkKeys : List String) (store : List Obj) (dataRow : Obj) :
    Except UpsertErr (List Obj × Bool) := do
  let pkVals ← pkExtract pkKeys dataRow
  let idx := firstIdx (pkMatch pkVals) store
  let dwhHash ← rowGet dataRow "dwh_hash"
  match idx with
  | some i =>
    let existing := (store.get? i).getD []
    if Val.pyEq ((objGet existing "dwh_hash").getD Val.vnull) dwhHash then
      pure (store, false)
    else
      let updated := dataRow.foldl
        (fun o kv => if strStartsWith kv.1 "dwh_" then o else objSet o kv.1 kv.2)
        existing
      let vf ← rowGet dataRow "dwh_valid_from"
      let updated := objSet updated "dwh_mofified_at" vf
      let updated := objSet updated "dwh_hash" dwhHash
      pure (store.set i updated, true)
  | none =>
    pure (store ++ [dataRow], true)

/-- Sequential denotation of draining the work queue: each record is claimed
by exactly one worker and applied in its own committed transaction, so a
failure-free concurrent run is some serialization of per-record upserts; the
coordinator only ever observes the summed counters.  Returns the final
store, the total processed count and the total modified count. -/
def ingestFold (pkKeys : List String) (store : List Obj) (batch : List Obj) :
    Except UpsertErr (List Obj × Nat × Nat) :=
  match batch with
  | [] => Except.ok (store, 0, 0)
  | r :: rest =>
    match upsert pkKeys store r with
    | Except.error e => Except.error e
    | Except.ok (s1, b) =>
      match ingestFold pkKeys s1 rest with
      | Except.error e => Except.error e
      | Except.ok (s2, p, m) => Except.ok (s2, p + 1, m + (if b then 1 else 0))

/-! The per-record retry loop of `_UploadWorker.run` (flows_utils.py lines
195-244).  The worker session's transactional behaviour is modelled by
keeping the last committed store: the upsert works on it, `commit` makes the
pending store the committed one, `rollback` discards the pending store.
Whether a given `commit()` call raises is environmental, so it is supplied
as an oracle indexed by the attempt number; likewise an attempt's upsert
call may itself raise (any `SQLAlchemyError` inside `upsert` is wrapped into
`UploadError`, and `UploadError` is not an `OperationalError`, so it reaches
the generic `except Exception` handler of `run`, not the retry handler). -/

/-- Outcome of one attempt of the retry loop, as seen by `run`. -/
inductive AttemptEv where
  | upsertRaises
  | commitOk
  | commitOperational
  | commitOtherError
deriving DecidableEq, Repr

/-- Observable actions of the retry loop, in order. -/
inductive StepAct where
  | attemptUpsert
  | commitAct
  | rollback
  | sleepSec (n : Nat)
  | raiseUpload
deriving DecidableEq, Repr

/-- Result of processing one claimed record. -/
structure RecOutcome where
  committedStore : List Obj
  modifiedInc : Nat
  processedInc : Nat
  fatal : Bool
  trace : List (List StepAct)
deriving DecidableEq, Repr

/-- The body of `for take in range(max_retries)` for one record, starting at
attempt number `take` with `fuel` iterations left (`fuel` starts at
`max_retries`, so the `fuel = 0` base case is unreachable).  `modified_count`
is incremented as soon as `upsert` returns True, before `commit()`. -/
def runIter (pkKeys : List String) (row : Obj) (ev : Nat → AttemptEv)
    (maxRetries : Nat) (committed : List Obj) (macc pacc : Nat)
    (tr : List (List StepAct)) : Nat → Nat → RecOutcome
  | _, 0 => ⟨committed, macc, pacc, false, tr⟩
  | take, fuel + 1 =>
    match ev take with
    | AttemptEv.upsertRaises =>
      ⟨committed, macc, pacc, true,
        tr ++ [[StepAct.attemptUpsert, StepAct.rollback, StepAct.raiseUpload]]⟩
    | evc =>
      match upsert pkKeys committed row with
      | Except.error _ =>
        ⟨committed, macc, pacc, true,
          tr ++ [[StepAct.attemptUpsert, StepAct.rollback, StepAct.raiseUpload]]⟩
      | Except.ok (pending, flag) =>
        let m1 := macc + (if flag then 1 else 0)
        match evc with
        | AttemptEv.commitOk =>
          ⟨pending, m1, pacc + 1, false,
            tr ++ [[StepAct.attemptUpsert, StepAct.commitAct]]⟩
        | AttemptEv.commitOperational =>
          if take == maxRetries - 1 then
            ⟨committed, m1, pacc, true,
              tr ++ [[StepAct.attemptUpsert, StepAct.commitAct, StepAct.rollback,
                StepAct.raiseUpload]]⟩
          else
            runIter pkKeys row ev maxRetries committed m1 pacc
              (tr ++ [[StepAct.attemptUpsert, StepAct.commitAct, StepAct.rollback,
                StepAct.sleepSec 5]])
              (take + 1) fuel
        | _ =>
          ⟨committed, m1, pacc, true,
            tr ++ [[StepAct.attemptUpsert, StepAct.commitAct, StepAct.rollback,
              StepAct.raiseUpload]]⟩

/-- Processing of one claimed record with the source defaults
`max_retries = 3`, `retries_delay = 5`. -/
def runRecord (pkKeys : List String) (row : Obj) (ev : Nat → AttemptEv)
    (committed : List Obj) : RecOutcome :=
  runIter pkKeys row ev 3 committed 0 0 [] 0 3

/-! The coordinator, `upload_data` (flows_utils.py lines 248-354), as a
denotation of one call.  The concurrent drain itself is modelled separately
by `SysStep`; here the coordinator-visible sequencing is kept: validation
order, what is enqueued and spawned, what the wait loop's exit depends on,
what is summed, what is logged, and what the function returns. -/

/-- A value read from the `num_workers` Prefect variable. -/
inductive PyScalar where
  | pint (i : Int)
  | pstr (s : String)
  | pnone
deriving DecidableEq, Repr

/-- Decimal digit run with Python's single-underscore-between-digits rule;
the boolean records whether the previous character was a digit. -/
def pyDigitsAux : List Char → Bool → Option Nat → Option Nat
  | [], true, some acc => some acc
  | [], _, _ => none
  | c :: rest, lastDigit, acc =>
    if c.isDigit then
      pyDigitsAux rest true (some ((acc.getD 0) * 10 + (c.toNat - 48)))
    else if c = Char.ofNat 95 ∧ lastDigit then pyDigitsAux rest false acc
    else none

/-- Digits (with underscores) to a natural number, total on valid input. -/
def pyDigits (cs : List Char) : Option Nat := pyDigitsAux cs false none

/-- Python `int(s)` for a string: strip whitespace, optional sign, digits. -/
def pyStrToInt (s : String) : Option Int :=
  let cs := ((s.toList.dropWhile Char.isWhitespace).reverse.dropWhile
    Char.isWhitespace).reverse
  match cs with
  | [] => none
  | c :: rest =>
    if c = Char.ofNat 45 then (pyDigits rest).map (fun n => -(n : Int))
    else if c = Char.ofNat 43 then (pyDigits rest).map (fun n => (n : Int))
    else (pyDigits cs).map (fun n => (n : Int))

/-- Python `int(x)`: `int` passes through, `None` raises `TypeError`,
strings parse or raise `ValueError` — both exception types are caught by the
`except (TypeError, ValueError)` handler on line 272. -/
def pyToInt : PyScalar → Option Int
  | PyScalar.pint i => some i
  | PyScalar.pnone => none
  | PyScalar.pstr s => pyStrToInt s

/-- How one `upload_data` call ends. -/
inductive UploadResult where
  | errValue
  | errUpload
  | returnedEarly
  | hang
  | doneNone (loggedProcessed loggedModified : Nat)
deriving DecidableEq, Repr

/-- Coordinator-visible summary of one `upload_data` call.  `returnValue` is
the Python return value of the function: its signature is `-> None` and it
contains no value-returning `return` statement, so every completed call
returns `None`. -/
structure UploadTrace where
  enqueued : Nat
  spawned : Nat
  returnValue : Option (Nat × Nat)
  result : UploadResult
deriving DecidableEq, Repr

/-- Sum of the per-worker counters read by line 343. -/
def sumWorkers (n : Nat) (f : Nat → Nat) : Nat :=
  (List.range n).foldl (fun acc i => acc + f i) 0

/-- Denotation of `upload_data` called with a DataFrame (the `df_path`
branch is not exercised by any claim).  `numWorkersVar` is what
`Variable.get("num_workers", default=32)` returned (`none` means the
variable is unset, giving the default `32`); `workerDied` says whether the
liveness poll observed a dead worker while draining; `observedModified i` is
worker i's `modified_count` at the moment line 343 reads it.  Source order:
the `num_workers` conversion (lines 269-275) runs before the DataFrame
checks, the metadata step, and any enqueue or spawn; `range(n)` spawns no
workers for `n <= 0`, and with zero live workers a nonempty queue is never
consumed, so the wait loop of lines 337-341 never exits. -/
def upload_data (numWorkersVar : Option PyScalar) (df : Option (List Obj))
    (now : Nat) (workerDied : Bool) (observedModified : Nat → Nat) :
    UploadTrace :=
  match df with
  | none => ⟨0, 0, none, UploadResult.errValue⟩
  | some rows =>
    match pyToInt (numWorkersVar.getD (PyScalar.pint 32)) with
    | none => ⟨0, 0, none, UploadResult.errValue⟩
    | some numWorkers =>
      if rows.isEmpty then ⟨0, 0, none, UploadResult.returnedEarly⟩
      else
        let stamped := rows.map (addMetadata now)
        let enq := stamped.length
        let spawned := numWorkers.toNat
        if spawned = 0 then ⟨enq, 0, none, UploadResult.hang⟩
        else if workerDied then ⟨enq, spawned, none, UploadResult.errUpload⟩
        else
          ⟨enq, spawned, none,
            UploadResult.doneNone enq (sumWorkers spawned observedModified)⟩

/-! Small-step model of the drain phase (flows_utils.py lines 337-343): the
shared work queue, the workers and the coordinator's aggregation.  A worker
that has dequeued a record holds it outside the queue while its transaction
runs (`busy`); `run` returns only when a dequeue times out on an empty
queue.  The coordinator's wait loop exits as soon as `work_queue.empty()`
is true and then immediately sums `worker.modified_count` over the workers
— the code never joins the worker threads first. -/

/-- One worker's thread state. -/
structure WorkerSt where
  busy : Bool
  modified : Nat
  done : Bool
deriving DecidableEq, Repr

/-- State of a drain: queued record count, workers, and the coordinator's
aggregate once it has been computed. -/
structure SysSt where
  queue : Nat
  workers : List WorkerSt
  summed : Option Nat
deriving DecidableEq, Repr

/-- Total of the workers' current `modified_count` values. -/
def modifiedTotal (ws : List WorkerSt) : Nat :=
  (ws.map WorkerSt.modified).sum

/-- Interleaved steps of the drain.  `claim` is `queue.get` succeeding;
`commitMod` / `commitUnmod` finish the claimed record's transaction (with or
without the upsert having reported a modification); `finish` is the `Empty`
timeout ending `run`; `aggregate` is the coordinator passing the
`while not work_queue.empty()` test and executing line 343 — its guard
depends only on queue emptiness, not on worker termination. -/
inductive SysStep : SysSt → SysSt → Prop
  | claim (q : Nat) (ws : List WorkerSt) (sm : Option Nat) (i : Nat) (w : WorkerSt) :
      ws.get? i = some w → w.busy = false → w.done = false →
      SysStep ⟨q + 1, ws, sm⟩ ⟨q, ws.set i ⟨true, w.modified, false⟩, sm⟩
  | commitMod (q : Nat) (ws : List WorkerSt) (sm : Option Nat) (i : Nat) (w : WorkerSt) :
      ws.get? i = some w → w.busy = true →
      SysStep ⟨q, ws, sm⟩ ⟨q, ws.set i ⟨false, w.modified + 1, false⟩, sm⟩
  | commitUnmod (q : Nat) (ws : List WorkerSt) (sm : Option Nat) (i : Nat) (w : WorkerSt) :
      ws.get? i = some w → w.busy = true →
      SysStep ⟨q, ws, sm⟩ ⟨q, ws.set i ⟨false, w.modified, false⟩, sm⟩
  | finish (ws : List WorkerSt) (sm : Option Nat) (i : Nat) (w : WorkerSt) :
      ws.get? i = some w → w.busy = false → w.done = false →
      SysStep ⟨0, ws, sm⟩ ⟨0, ws.set i ⟨false, w.modified, true⟩, sm⟩
  | aggregate (ws : List WorkerSt) :
      SysStep ⟨0, ws, none⟩ ⟨0, ws, some (modifiedTotal ws)⟩

/-! The values-clause parser of `_parse_insert_statements`
(f1db/scrape.py lines 52-74): quote-aware tuple extraction with
re.findall, quote-aware field splitting with re.split, and per-field type
inference. -/

/-- The single-quote character. -/
def squote : Char := Char.ofNat 39

/-- The backslash character. -/
def bslash : Char := Char.ofNat 92

/-- The opening parenthesis. -/
def lparen : Char := Char.ofNat 40

/-- The closing parenthesis. -/
def rparen : Char := Char.ofNat 41

/-- Number of single quotes in a character list.  The lookahead of the
field-splitting pattern, an optional run of quote pairs followed by a
quote-free tail, matches a string exactly when its quote count is even. -/
def quoteCount (cs : List Char) : Nat := cs.countP (fun c => c = squote)

/-- The splitter `re.split` applies on one tuple's interior: split at every
comma whose lookahead sees an even number of quotes, the separator also
consuming the `\s*` run after the comma (`skipping` is true while inside
that run).  The quote parity tested at the comma equals the parity after the
whitespace run, since whitespace contains no quote. -/
def splitFieldsAux : List Char → Bool → List Char → List (List Char)
  | [], _, cur => [cur.reverse]
  | c :: rest, skipping, cur =>
    if skipping = true ∧ c.isWhitespace = true then splitFieldsAux rest true cur
    else if c = Char.ofNat 44 ∧ quoteCount rest % 2 = 0 then
      cur.reverse :: splitFieldsAux rest true []
    else splitFieldsAux rest false (c :: cur)

/-- Quote-aware field splitting of a tuple interior. -/
def splitFields (cs : List Char) : List (List Char) := splitFieldsAux cs false []

/-- Matcher for the tuple pattern's body after the opening parenthesis: runs
of characters other than parentheses and quotes, or complete single-quoted
literals (in which a backslash-quote pair is an escape), at least one of
either, then the closing parenthesis.  Returns the consumed characters
(closing parenthesis included) and the rest.  `inQ` is true inside a quoted
literal; `aft` is true when the previous character was a backslash that can
begin an escape (the greedy engine pairs it with a following quote);
`seen` is true once one alternation item has been consumed. -/
def scanTuple : Bool → Bool → Bool → List Char → Option (List Char × List Char)
  | _, _, _, [] => none
  | true, aft, seen, c :: rest =>
    if aft = true ∧ c = squote then
      (scanTuple true false seen rest).map (fun pr => (c :: pr.1, pr.2))
    else if c = squote then
      (scanTuple false false true rest).map (fun pr => (c :: pr.1, pr.2))
    else (scanTuple true (c = bslash) seen rest).map (fun pr => (c :: pr.1, pr.2))
  | false, _, seen, c :: rest =>
    if c = rparen then (if seen then some ([c], rest) else none)
    else if c = lparen then none
    else if c = squote then
      (scanTuple true false seen rest).map (fun pr => (c :: pr.1, pr.2))
    else (scanTuple false false true rest).map (fun pr => (c :: pr.1, pr.2))

/-- Leftmost non-overlapping tuple matches of the findall on line 53: try a
match at each opening parenthesis, resume after a successful match, advance
one character otherwise.  The fuel only bounds the number of scan positions
and is instantiated with the input length. -/
def findTuplesAux : Nat → List Char → List (List Char)
  | 0, _ => []
  | _ + 1, [] => []
  | fuel + 1, c :: rest =>
    if c = lparen then
      match scanTuple false false false rest with
      | some (body, rest2) => (lparen :: body) :: findTuplesAux fuel rest2
      | none => findTuplesAux fuel rest
    else findTuplesAux fuel rest

/-- All value tuples of a values block. -/
def findTuples (s : String) : List (List Char) :=
  findTuplesAux s.toList.length s.toList

/-- Python `str.strip(chars)`: drop characters accepted by `p` from both
ends. -/
def stripBy (p : Char → Bool) (cs : List Char) : List Char :=
  ((cs.dropWhile p).reverse.dropWhile p).reverse

/-- Python `str.strip("()")`: drop the outer parentheses characters from
both ends. -/
def stripParens (cs : List Char) : List Char :=
  stripBy (fun c => c = lparen || c = rparen) cs

/-- Python `str.strip()`: drop whitespace from both ends. -/
def pyStrip (cs : List Char) : List Char := stripBy Char.isWhitespace cs

/-- Python `str.replace(pat, rep)`: leftmost, non-overlapping.  The fuel is
instantiated with the input length, enough for every replacement step. -/
def pyReplace : Nat → List Char → List Char → List Char → List Char
  | 0, cs, _, _ => cs
  | fuel + 1, cs, pat, rep =>
    if pat.isPrefixOf cs && pat.length ≠ 0 then
      rep ++ pyReplace fuel (cs.drop pat.length) pat rep
    else
      match cs with
      | [] => []
      | c :: rest => c :: pyReplace fuel rest pat rep

/-- Unescaping of a quoted literal's interior, line 63:
`x[1:-1].replace("\\'", "'").replace("''", "'")`. -/
def unescapeQuoted (cs : List Char) : List Char :=
  let once := pyReplace cs.length cs [bslash, squote] [squote]
  pyReplace once.length once [squote, squote] [squote]

/-- Python `str.upper` on the characters the dump alphabet uses. -/
def pyUpper (cs : List Char) : List Char := cs.map Char.toUpper

/-- A nonempty all-digit run, the regex `\d+`. -/
def digits1 (cs : List Char) : Bool := !cs.isEmpty && cs.all Char.isDigit

/-- The regex `^-?\d+$` of line 66. -/
def matchIntLit (cs : List Char) : Bool :=
  match cs with
  | c :: rest => if c = Char.ofNat 45 then digits1 rest else digits1 cs
  | [] => false

/-- Body of the float regex: `\d+\.\d+`. -/
def floatBody (cs : List Char) : Bool :=
  let d1 := cs.takeWhile Char.isDigit
  let rest := cs.dropWhile Char.isDigit
  !d1.isEmpty &&
    match rest with
    | c :: d2 => c = Char.ofNat 46 && digits1 d2
    | [] => false

/-- The regex `^-?\d+\.\d+$` of line 64. -/
def matchFloatLit (cs : List Char) : Bool :=
  match cs with
  | c :: rest => if c = Char.ofNat 45 then floatBody rest else floatBody cs
  | [] => false

/-- Decimal value of a digit run (underscore-free here). -/
def digitsToNat (cs : List Char) : Nat :=
  cs.foldl (fun acc c => acc * 10 + (c.toNat - 48)) 0

/-- Integer value of a matched `-?\d+` literal. -/
def intLitVal (cs : List Char) : Int :=
  match cs with
  | c :: rest =>
    if c = Char.ofNat 45 then -(digitsToNat rest : Int) else (digitsToNat cs : Int)
  | [] => 0

/-- Field type inference, lines 59-69: strip, then NULL or empty to null,
quoted to unescaped text, float literal to float, integer literal to
integer, anything else verbatim.  A float literal is kept as its matched
text in `vfloat`; Python stores `float(x)`, whose numeric value no claim
depends on. -/
def parseField (raw : List Char) : Val :=
  let x := pyStrip raw
  if pyUpper x = "NULL".toList ∨ x = [] then Val.vnull
  else if x.head? = some squote ∧ x.getLast? = some squote then
    Val.vstr (String.mk (unescapeQuoted (x.drop 1).dropLast))
  else if matchFloatLit x then Val.vfloat (String.mk x)
  else if matchIntLit x then Val.vint (intLitVal x)
  else Val.vstr (String.mk x)

/-- The known-bad-data override of lines 71-73. -/
def badDataFix (parts : List Val) : List Val :=
  if parts = [Val.vstr "bar-007", Val.vstr "bar", Val.vstr "006",
      Val.vstr "BAR 006"] then
    [Val.vstr "bar-007", Val.vstr "bar", Val.vstr "007", Val.vstr "BAR 007"]
  else parts

/-- One extracted tuple to one row of typed fields, lines 56-74. -/
def parseTuple (t : List Char) : List Val :=
  badDataFix ((splitFields (stripParens t)).map parseField)

/-- All rows of one statement's values block, lines 53-74. -/
def parseValuesBlock (s : String) : List (List Val) :=
  (findTuples s).map parseTuple

/-! Helper lemmas about objects and the metadata step. -/

theorem objGet_nil (k : String) : objGet [] k = none := rfl

theorem objGet_update_mem (o : Obj) (k : String) (v : Val)
    (h : o.any (fun kv => kv.1 == k) = true) :
    objGet (o.map (fun kv => if kv.1 == k then (k, v) else kv)) k = some v := by
  induction o with
  | nil => simp at h
  | cons kv tl ih =>
    by_cases hk : kv.1 = k
    · simp [objGet, hk]
    · simp only [List.any_cons, Bool.or_eq_true, beq_iff_eq] at h
      rcases h with h | h
      · exact absurd h hk
      · simpa [objGet, hk] using ih h

theorem objGet_none_of_not_mem (o : Obj) (k : String)
    (h : o.any (fun kv => kv.1 == k) = false) : objGet o k = none := by
  induction o with
  | nil => rfl
  | cons kv tl ih =>
    simp only [List.any_cons, Bool.or_eq_false_iff] at h
    simp [objGet, h.1, ih h.2]

theorem objGet_append (o1 o2 : Obj) (k : String) :
    objGet (o1 ++ o2) k = ((objGet o1 k).orElse (fun _ => objGet o2 k)) := by
  induction o1 with
  | nil => simp [objGet]
  | cons kv tl ih =>
    by_cases hk : kv.1 = k
    · simp [objGet, hk]
    · simpa [objGet, hk] using ih

theorem objGet_objSet_self (o : Obj) (k : String) (v : Val) :
    objGet (objSet o k v) k = some v := by
  unfold objSet
  by_cases h : o.any (fun kv => kv.1 == k) = true
  · simpa [h] using objGet_update_mem o k v h
  · have h2 : o.any (fun kv => kv.1 == k) = false := Bool.eq_false_iff.mpr h
    rw [if_neg (by simp [h2]), objGet_append, objGet_none_of_not_mem o k h2]
    simp [objGet]

theorem objGet_update_of_ne (o : Obj) (k k2 : String) (v : Val) (h : k ≠ k2) :
    objGet (o.map (fun kv => if kv.1 == k then (k, v) else kv)) k2 =
      objGet o k2 := by
  induction o with
  | nil => rfl
  | cons kv tl ih =>
    by_cases hk : kv.1 = k
    · simpa [objGet, hk, Ne.symm h, h] using ih
    · by_cases hk2 : kv.1 = k2
      · simp [objGet, hk, hk2, Ne.symm h, h]
      · simpa [objGet, hk, hk2] using ih

theorem objGet_objSet_of_ne (o : Obj) (k k2 : String) (v : Val) (h : k ≠ k2) :
    objGet (objSet o k v) k2 = objGet o k2 := by
  unfold objSet
  split
  · exact objGet_update_of_ne o k k2 v h
  · rw [objGet_append]
    cases ho : objGet o k2 with
    | some v2 => simp
    | none => simp [objGet, Ne.symm h, h]

theorem objGet_map_val (o : Obj) (f : Val → Val) (k : String) :
    objGet (o.map (fun kv => (kv.1, f kv.2))) k = (objGet o k).map f := by
  induction o with
  | nil => rfl
  | cons kv tl ih =>
    by_cases hk : kv.1 = k <;> simp [objGet, hk, ih]

theorem objGet_addMetadata_hash (now : Nat) (row : Obj) :
    objGet (addMetadata now row) "dwh_hash" =
      some (Val.vstr (fingerprint (row.map Prod.snd))) := by
  unfold addMetadata
  rw [objGet_map_val, objGet_objSet_of_ne _ _ _ _ (by decide),
    objGet_objSet_of_ne _ _ _ _ (by decide), objGet_objSet_self]
  rfl

/-! Helper lemmas about the SHA-384 digest shape. -/

theorem wordBytes_lt (w : Nat) : ∀ x ∈ wordBytes w, x < 256 := by
  intro x hx
  simp only [wordBytes, List.mem_cons, List.not_mem_nil, or_false] at hx
  rcases hx with rfl | rfl | rfl | rfl | rfl | rfl | rfl | rfl <;> omega

theorem sha384Bytes_mem_lt (msg : List Nat) : ∀ x ∈ sha384Bytes msg, x < 256 := by
  intro x hx
  simp only [sha384Bytes, List.mem_append] at hx
  rcases hx with ((((h | h) | h) | h) | h) | h <;> exact wordBytes_lt _ _ h

theorem sha384Bytes_length (msg : List Nat) : (sha384Bytes msg).length = 48 := by
  simp [sha384Bytes, wordBytes]

theorem flatMap_pair_length (bs : List Nat) (f g : Nat → Char) :
    (bs.flatMap (fun x => [f x, g x])).length = 2 * bs.length := by
  induction bs with
  | nil => rfl
  | cons b tl ih => simp [ih]; omega

theorem hexDigitChar_mem (n : Nat) (h : n < 16) :
    ("0123456789abcdef".toList).contains (hexDigitChar n) = true := by
  interval_cases n <;> decide

theorem sha384HexOfString_length (s : String) :
    (sha384HexOfString s).length = 96 := by
  show (String.mk ((sha384Bytes (strBytes s)).flatMap
    (fun x => [hexDigitChar (x / 16), hexDigitChar (x % 16)]))).length = 96
  show ((sha384Bytes (strBytes s)).flatMap
    (fun x => [hexDigitChar (x / 16), hexDigitChar (x % 16)])).length = 96
  rw [flatMap_pair_length, sha384Bytes_length]

theorem sha384HexOfString_hex (s : String) :
    ((sha384HexOfString s).toList.all
      (fun c => ("0123456789abcdef".toList).contains c)) = true := by
  rw [List.all_eq_true]
  intro c hc
  have hc2 : c ∈ (sha384Bytes (strBytes s)).flatMap
      (fun x => [hexDigitChar (x / 16), hexDigitChar (x % 16)]) := hc
  rw [List.mem_flatMap] at hc2
  obtain ⟨b, hb, hcb⟩ := hc2
  have hblt := sha384Bytes_mem_lt (strBytes s) b hb
  simp only [List.mem_cons, List.not_mem_nil, or_false] at hcb
  rcases hcb with rfl | rfl
  · exact hexDigitChar_mem _ (by omega)
  · exact hexDigitChar_mem _ (by omega)

/-! Claim theorems. -/

/-- Mapped columns of a change-tracked entity table used in the examples:
the entity's own columns plus the four DWHMixin metadata columns declared on
lines 41-52 of flows_utils.py.  The misspelled attribute name written by
line 99 is not among them. -/
def dwhTableCols : List String :=
  ["id", "name", "dwh_hash", "dwh_valid_from", "dwh_modified_at", "dwh_valid_to"]

/-- A stored row: key 1, fingerprint hOld, created and modified at time 10. -/
def sampleStored : Obj :=
  [("id", Val.vint 1), ("name", Val.vstr "old"), ("dwh_hash", Val.vstr "hOld"),
   ("dwh_valid_from", Val.vtime 10), ("dwh_modified_at", Val.vtime 10)]

/-- An incoming data row with the same key, a changed name, a new
fingerprint, and batch timestamp 20. -/
def sampleNew : Obj :=
  [("id", Val.vint 1), ("name", Val.vstr "new"), ("dwh_hash", Val.vstr "hNew"),
   ("dwh_valid_from", Val.vtime 20), ("dwh_modified_at", Val.vtime 20)]

/-- The object produced by the update branch of `upsert` on the above. -/
def sampleUpdated : Obj :=
  [("id", Val.vint 1), ("name", Val.vstr "new"), ("dwh_hash", Val.vstr "hNew"),
   ("dwh_valid_from", Val.vtime 10), ("dwh_modified_at", Val.vtime 10),
   ("dwh_mofified_at", Val.vtime 20)]

/-- C1: on a primary-key match with a differing fingerprint, the update
branch of `DWHMixin.upsert` updates every non-metadata field in place, sets
the stored fingerprint, leaves `dwh_valid_from` and `dwh_valid_to`
untouched, and returns True — but it does not set the `dwh_modified_at`
column to the batch timestamp: line 99 misspells the attribute as
`dwh_mofified_at`, which is not a mapped column of the table, so the stored
`dwh_modified_at` keeps its old value 10 while the batch timestamp 20 lands
in a stray unmapped attribute.  This contradicts the declared intent of the
`dwh_modified_at` column ("Modification timestamp", line 48). -/
theorem upsert_update_skips_modified_at :
    upsert ["id"] [sampleStored] sampleNew = Except.ok ([sampleUpdated], true) ∧
    colVal sampleUpdated "name" = Val.vstr "new" ∧
    colVal sampleUpdated "dwh_hash" = Val.vstr "hNew" ∧
    colVal sampleUpdated "dwh_valid_from" = Val.vtime 10 ∧
    colVal sampleUpdated "dwh_valid_to" = Val.vnull ∧
    colVal sampleUpdated "dwh_modified_at" = Val.vtime 10 ∧
    objGet sampleUpdated "dwh_mofified_at" = some (Val.vtime 20) ∧
    ("dwh_mofified_at" ∈ dwhTableCols) = False := by
  refine ⟨by decide, by decide, by decide, by decide, by decide, by decide,
    by decide, by simp [dwhTableCols]⟩

/-- C10: with one stored row whose fingerprint differs from the incoming
record, a transient failure of the first `commit()` followed by a
successful retry makes the worker count the single record twice in
`modified_count` (the increment on line 203 precedes the commit on line 204
and is not undone by the rollback), while `processed_count`, incremented
only after a successful commit, counts it once. -/
theorem worker_modified_count_overcounts :
    (runRecord ["id"] sampleNew
      (fun n => if n = 0 then AttemptEv.commitOperational else AttemptEv.commitOk)
      [sampleStored]) =
      ⟨[sampleUpdated], 2, 1, false,
        [[StepAct.attemptUpsert, StepAct.commitAct, StepAct.rollback,
          StepAct.sleepSec 5],
         [StepAct.attemptUpsert, StepAct.commitAct]]⟩ ∧ (1 : Nat) < 2 := by
  exact ⟨by decide, by decide⟩

/-- A raw row whose second field is the NaN missing-value sentinel. -/
def rowWithNan : Obj := [("id", Val.vint 1), ("x", Val.vnan)]

/-- The same raw row with an explicit None in the second field. -/
def rowWithNone : Obj := [("id", Val.vint 1), ("x", Val.vnull)]

set_option maxRecDepth 40000 in
/-- C4 counterexample: line 304 (`df.replace(np.nan: None)`) runs after line
297 computes `dwh_hash`, so two rows that differ only in the representation
of the absent field (NaN versus None) are stored identically normalized but
get different fingerprints: the hash input reads `1|nan` for one and
`1|None` for the other. -/
theorem nan_hashed_before_normalization :
    objGet (addMetadata 0 rowWithNan) "x" = some Val.vnull ∧
    objGet (addMetadata 0 rowWithNone) "x" = some Val.vnull ∧
    objGet (addMetadata 0 rowWithNan) "dwh_hash" ≠
      objGet (addMetadata 0 rowWithNone) "dwh_hash" := by
  refine ⟨by decide, by decide, by decide⟩

theorem nanToNone_ne_nan (v : Val) : nanToNone v ≠ Val.vnan := by
  unfold nanToNone
  split
  · exact fun h => by cases h
  · assumption

/-- C4 amended: sentinel NaN values are normalized to explicit nulls after
the fingerprint is computed and before storage: no stored cell holds NaN,
and the stored `dwh_hash` is the fingerprint of the raw, un-normalized row
values. -/
theorem nan_normalized_after_fingerprint (now : Nat) (row : Obj) :
    (addMetadata now row).countP (fun kv => decide (kv.2 = Val.vnan)) = 0 ∧
    objGet (addMetadata now row) "dwh_hash" =
      some (Val.vstr (fingerprint (row.map Prod.snd))) := by
  constructor
  · rw [List.countP_eq_zero]
    intro kv hkv
    unfold addMetadata at hkv
    rw [List.mem_map] at hkv
    obtain ⟨kv0, _, rfl⟩ := hkv
    simpa using nanToNone_ne_nan kv0.2
  · exact objGet_addMetadata_hash now row

/-- C5: the `dwh_hash` attached to every row before it is enqueued is the
hex-encoded SHA-384 digest of the pipe-joined string representation of the
raw row's values in column order (the metadata columns are added after the
hash is computed, so none of them is hashed): it is 96 characters long, all
hex digits, and independent of the batch timestamp, so identical field
values give identical fingerprints regardless of invocation time, and
recomputation is deterministic. -/
theorem fingerprint_is_sha384_hex (t1 t2 : Nat) (row : Obj) :
    objGet (addMetadata t1 row) "dwh_hash" =
      some (Val.vstr (sha384HexOfString (pipeJoin (row.map Prod.snd)))) ∧
    (fingerprint (row.map Prod.snd)).length = 96 ∧
    ((fingerprint (row.map Prod.snd)).toList.all
      (fun c => ("0123456789abcdef".toList).contains c)) = true ∧
    objGet (addMetadata t1 row) "dwh_hash" =
      objGet (addMetadata t2 row) "dwh_hash" := by
  refine ⟨objGet_addMetadata_hash t1 row, sha384HexOfString_length _,
    sha384HexOfString_hex _, ?_⟩
  rw [objGet_addMetadata_hash, objGet_addMetadata_hash]

/-- A one-row DataFrame. -/
def oneRowDf : List Obj := [[("id", Val.vint 1)]]

/-- C3 counterexample: a completed `upload_data` call does not return the
processed/modified pair — the function's signature is `-> None` and it has
no value-returning `return`; the two numbers are only written to the log,
and the logged processed count is the enqueued total (line 344 sets
`i = total_rows`), not a sum of the workers' `processed_count`. -/
theorem upload_data_returns_none :
    upload_data (some (PyScalar.pint 2)) (some oneRowDf) 0 false (fun _ => 1) =
      ⟨1, 2, none, UploadResult.doneNone 1 2⟩ ∧
    (upload_data (some (PyScalar.pint 2)) (some oneRowDf) 0 false
      (fun _ => 1)).returnValue = none := by
  exact ⟨by decide, by decide⟩

theorem upload_data_success_shape (k : Int) (rows : List Obj)
    (now : Nat) (om : Nat → Nat) (h1 : 0 < k) (h2 : rows ≠ []) :
    upload_data (some (PyScalar.pint k)) (some rows) now false om =
      ⟨rows.length, k.toNat, none,
        UploadResult.doneNone rows.length (sumWorkers k.toNat om)⟩ := by
  unfold upload_data
  have hne : rows.isEmpty = false := by
    cases rows with
    | nil => exact absurd rfl h2
    | cons r tl => rfl
  have hnz : ¬(k.toNat = 0) := by
    intro h
    rw [Int.toNat_eq_zero] at h
    omega
  simp only [Option.getD, pyToInt, hne, Bool.false_eq_true, if_false]
  rw [if_neg hnz]
  simp [List.length_map]

/-- C3 amended: a worker-failure-free call logs processed = the number of
enqueued records and modified = the sum over the spawned workers of their
`modified_count` as observed at aggregation, and returns None; the log line
is the only place the metrics are reported. -/
theorem upload_data_logs_and_returns_none (k : Int) (rows : List Obj)
    (now : Nat) (om : Nat → Nat) (h1 : 0 < k) (h2 : rows ≠ []) :
    upload_data (some (PyScalar.pint k)) (some rows) now false om =
      ⟨rows.length, k.toNat, none,
        UploadResult.doneNone rows.length (sumWorkers k.toNat om)⟩ :=
  upload_data_success_shape k rows now om h1 h2

/-- C3 amended witness. -/
theorem upload_data_logs_and_returns_none_witness :
    upload_data (some (PyScalar.pint 1)) (some oneRowDf) 0 false (fun _ => 5) =
      ⟨1, 1, none, UploadResult.doneNone 1 (sumWorkers 1 (fun _ => 5))⟩ :=
  upload_data_logs_and_returns_none 1 oneRowDf 0 (fun _ => 5) (by decide)
    (by decide)

/-- C9 counterexample: the configured worker count "0" is not a positive
integer, yet `upload_data` raises no configuration error: the `int`
conversion on line 271 succeeds, the record is enqueued, `range(0)` spawns
no workers, and the wait loop of lines 337-341 can never exit. -/
theorem worker_count_zero_enqueues_then_hangs :
    pyToInt (PyScalar.pstr "0") = some 0 ∧ ¬((0 : Int) > 0) ∧
    upload_data (some (PyScalar.pstr "0")) (some oneRowDf) 0 false (fun _ => 0) =
      ⟨1, 0, none, UploadResult.hang⟩ := by
  refine ⟨by decide, by decide, by decide⟩

/-- C9 amended: the fail-fast configuration check rejects exactly the
worker-count values that cannot be converted to an integer — for those the
call raises before anything is enqueued or spawned — while a non-positive
integer value passes the check, after which the records are enqueued, no
worker is spawned, and the call never terminates. -/
theorem invalid_worker_count_check (v : PyScalar) (rows : List Obj) (now : Nat)
    (wd : Bool) (om : Nat → Nat) :
    (pyToInt v = none →
      upload_data (some v) (some rows) now wd om =
        ⟨0, 0, none, UploadResult.errValue⟩) ∧
    (∀ k : Int, pyToInt v = some k → k ≤ 0 → rows ≠ [] →
      upload_data (some v) (some rows) now wd om =
        ⟨rows.length, 0, none, UploadResult.hang⟩) := by
  constructor
  · intro h
    unfold upload_data
    simp [h]
  · intro k hk hle hne
    have hemp : rows.isEmpty = false := by
      cases rows with
      | nil => exact absurd rfl hne
      | cons r tl => rfl
    have hz : k.toNat = 0 := by
      rw [Int.toNat_eq_zero]
      omega
    unfold upload_data
    simp [hk, hemp, hz, List.length_map]

/-- C9 amended witness. -/
theorem invalid_worker_count_check_witness :
    upload_data (some (PyScalar.pstr "many")) (some oneRowDf) 0 false
        (fun _ => 0) = ⟨0, 0, none, UploadResult.errValue⟩ ∧
    upload_data (some (PyScalar.pint (-3))) (some oneRowDf) 0 false
        (fun _ => 0) = ⟨1, 0, none, UploadResult.hang⟩ :=
  ⟨(invalid_worker_count_check (PyScalar.pstr "many") oneRowDf 0 false
      (fun _ => 0)).1 (by decide),
   (invalid_worker_count_check (PyScalar.pint (-3)) oneRowDf 0 false
      (fun _ => 0)).2 (-3) (by decide) (by decide) (by decide)⟩

/-- Drain state: one record queued, one idle worker, no aggregate yet. -/
def drainS0 : SysSt := ⟨1, [⟨false, 0, false⟩], none⟩

/-- Drain state: the worker has claimed the record; the queue is empty. -/
def drainS1 : SysSt := ⟨0, [⟨true, 0, false⟩], none⟩

/-- Drain state: the coordinator has aggregated while the worker is busy. -/
def drainS2 : SysSt := ⟨0, [⟨true, 0, false⟩], some 0⟩

/-- Drain state: the worker commits after the aggregate was taken. -/
def drainS3 : SysSt := ⟨0, [⟨false, 1, false⟩], some 0⟩

/-- C2 counterexample: an execution of the drain in which the coordinator's
wait loop exits (the queue is empty) and line 343 sums the counters while
the single worker is still busy with its claimed record and has not
terminated; the worker then increments its `modified_count` after the sum
was taken, so the aggregate (0) misses the increment (final total 1).  The
coordinator never joins the worker threads, so the summed value is read
while its owning worker may still increment it. -/
theorem aggregate_races_with_busy_worker :
    SysStep drainS0 drainS1 ∧ SysStep drainS1 drainS2 ∧ SysStep drainS2 drainS3 ∧
    drainS1.workers.get? 0 = some ⟨true, 0, false⟩ ∧
    drainS2.summed = some 0 ∧ modifiedTotal drainS3.workers = 1 := by
  refine ⟨?_, ?_, ?_, rfl, rfl, by decide⟩
  · exact SysStep.claim 0 [⟨false, 0, false⟩] none 0 ⟨false, 0, false⟩ rfl rfl rfl
  · exact SysStep.aggregate [⟨true, 0, false⟩]
  · exact SysStep.commitMod 0 [⟨true, 0, false⟩] (some 0) 0 ⟨true, 0, false⟩ rfl rfl

/-- C2 amended: a valid call enqueues every change-tracked record and spawns
exactly the configured number of workers on the one shared queue, and the
coordinator blocks until the queue is empty (failing instead if a worker
died); the per-worker modified counters are then summed immediately, without
joining the worker threads, so a counter may be read while its owning worker
is still finishing its last claimed record (see the counterexample).  In the
drain model, the aggregation step is enabled only in states with an empty
queue. -/
theorem coordinator_waits_for_queue_only (k : Int) (rows : List Obj)
    (now : Nat) (om : Nat → Nat) (h1 : 0 < k) (h2 : rows ≠ []) :
    ((upload_data (some (PyScalar.pint k)) (some rows) now false om).enqueued =
        rows.length ∧
      (upload_data (some (PyScalar.pint k)) (some rows) now false om).spawned =
        k.toNat) ∧
    (∀ s s2 : SysSt, SysStep s s2 → s.summed = none → s2.summed ≠ none →
      s.queue = 0) := by
  constructor
  · rw [upload_data_success_shape k rows now om h1 h2]
    exact ⟨rfl, rfl⟩
  · intro s s2 hstep hs hs2
    cases hstep <;> simp_all

/-- C2 amended witness. -/
theorem coordinator_waits_for_queue_only_witness :
    ((upload_data (some (PyScalar.pint 1)) (some oneRowDf) 0 false
        (fun _ => 0)).enqueued = 1 ∧
      (upload_data (some (PyScalar.pint 1)) (some oneRowDf) 0 false
        (fun _ => 0)).spawned = (1 : Int).toNat) ∧
    (⟨0, [], none⟩ : SysSt).queue = 0 :=
  ⟨(coordinator_waits_for_queue_only 1 oneRowDf 0 (fun _ => 0) (by decide)
      (by decide)).1,
   (coordinator_waits_for_queue_only 1 oneRowDf 0 (fun _ => 0) (by decide)
      (by decide)).2 ⟨0, [], none⟩ ⟨0, [], some 0⟩ (SysStep.aggregate [])
      rfl (by decide)⟩

/-- C8: for each claimed record, the worker retries only on the transient
`OperationalError` class: every non-final attempt is one that rolled back
and slept the fixed 5-second backoff after a transient commit failure; at
most 3 attempts are made; a fatal outcome always follows a rollback (the
committed store is unchanged and the record is not counted as processed)
and ends in the raised upload failure; three consecutive transient failures
exhaust the budget fatally, and a non-transient first-attempt error (an
exception out of the upsert call, or a non-transient commit error) is
immediately fatal. -/
theorem worker_retry_policy (pkKeys : List String) (row : Obj)
    (ev : Nat → AttemptEv) (store : List Obj) :
    ((runRecord pkKeys row ev store).trace.length ≤ 3) ∧
    (∀ j, j + 1 < (runRecord pkKeys row ev store).trace.length →
      ev j = AttemptEv.commitOperational ∧
      (runRecord pkKeys row ev store).trace.get? j =
        some [StepAct.attemptUpsert, StepAct.commitAct, StepAct.rollback,
          StepAct.sleepSec 5]) ∧
    ((runRecord pkKeys row ev store).fatal = true →
      (runRecord pkKeys row ev store).processedInc = 0 ∧
      (runRecord pkKeys row ev store).committedStore = store ∧
      ∃ pre, (runRecord pkKeys row ev store).trace.getLast? =
        some (pre ++ [StepAct.rollback, StepAct.raiseUpload])) ∧
    ((∀ j, j < 3 → ev j = AttemptEv.commitOperational) →
      (∃ sb, upsert pkKeys store row = Except.ok sb) →
      (runRecord pkKeys row ev store).fatal = true ∧
      (runRecord pkKeys row ev store).trace.length = 3) ∧
    ((ev 0 = AttemptEv.upsertRaises ∨ ev 0 = AttemptEv.commitOtherError) →
      (runRecord pkKeys row ev store).fatal = true ∧
      (runRecord pkKeys row ev store).trace.length = 1) := by
  rcases h0 : ev 0 with _ | _ | _ | _
  · -- first attempt: the upsert call raises
    have hr : runRecord pkKeys row ev store = ⟨store, 0, 0, true,
        [[StepAct.attemptUpsert, StepAct.rollback, StepAct.raiseUpload]]⟩ := by
      simp [runRecord, runIter, h0]
    rw [hr]
    refine ⟨by norm_num, ?_, ?_, ?_, ?_⟩
    · intro j hj
      exact absurd hj (by norm_num)
    · intro _
      exact ⟨rfl, rfl, ⟨[StepAct.attemptUpsert], rfl⟩⟩
    · intro hall _
      have hx := hall 0 (by norm_num)
      simp [h0] at hx
    · intro _
      exact ⟨rfl, rfl⟩
  · -- first attempt: commit succeeds (or the upsert itself errors)
    rcases hu : upsert pkKeys store row with e | sb
    · have hr : runRecord pkKeys row ev store = ⟨store, 0, 0, true,
          [[StepAct.attemptUpsert, StepAct.rollback, StepAct.raiseUpload]]⟩ := by
        simp [runRecord, runIter, h0, hu]
      rw [hr]
      refine ⟨by norm_num, ?_, ?_, ?_, ?_⟩
      · intro j hj
        exact absurd hj (by norm_num)
      · intro _
        exact ⟨rfl, rfl, ⟨[StepAct.attemptUpsert], rfl⟩⟩
      · intro _ hok
        obtain ⟨sb2, heq⟩ := hok
        simp [hu] at heq
      · intro hor
        rcases hor with h | h <;> simp [h0] at h
    · obtain ⟨pending, flag⟩ := sb
      have hr : runRecord pkKeys row ev store = ⟨pending,
          0 + (if flag then 1 else 0), 0 + 1, false,
          [[StepAct.attemptUpsert, StepAct.commitAct]]⟩ := by
        simp [runRecord, runIter, h0, hu]
      rw [hr]
      refine ⟨by norm_num, ?_, ?_, ?_, ?_⟩
      · intro j hj
        exact absurd hj (by norm_num)
      · intro h
        simp at h
      · intro hall _
        have hx := hall 0 (by norm_num)
        simp [h0] at hx
      · intro hor
        rcases hor with h | h <;> simp [h0] at h
  · -- first attempt: transient commit failure
    rcases hu : upsert pkKeys store row with e | sb
    · have hr : runRecord pkKeys row ev store = ⟨store, 0, 0, true,
          [[StepAct.attemptUpsert, StepAct.rollback, StepAct.raiseUpload]]⟩ := by
        simp [runRecord, runIter, h0, hu]
      rw [hr]
      refine ⟨by norm_num, ?_, ?_, ?_, ?_⟩
      · intro j hj
        exact absurd hj (by norm_num)
      · intro _
        exact ⟨rfl, rfl, ⟨[StepAct.attemptUpsert], rfl⟩⟩
      · intro _ hok
        obtain ⟨sb2, heq⟩ := hok
        simp [hu] at heq
      · intro hor
        rcases hor with h | h <;> simp [h0] at h
    · obtain ⟨pending, flag⟩ := sb
      rcases h1 : ev 1 with _ | _ | _ | _
      · have hr : runRecord pkKeys row ev store = ⟨store,
            0 + (if flag then 1 else 0), 0, true,
            [[StepAct.attemptUpsert, StepAct.commitAct, StepAct.rollback,
              StepAct.sleepSec 5],
             [StepAct.attemptUpsert, StepAct.rollback, StepAct.raiseUpload]]⟩ := by
          simp [runRecord, runIter, h0, h1, hu]
        rw [hr]
        refine ⟨by norm_num, ?_, ?_, ?_, ?_⟩
        · intro j hj
          simp only [List.length_cons, List.length_nil] at hj
          obtain rfl : j = 0 := by omega
          exact ⟨h0, rfl⟩
        · intro _
          exact ⟨rfl, rfl, ⟨[StepAct.attemptUpsert], rfl⟩⟩
        · intro hall _
          have hx := hall 1 (by norm_num)
          simp [h1] at hx
        · intro hor
          rcases hor with h | h <;> simp [h0] at h
      · have hr : runRecord pkKeys row ev store = ⟨pending,
            (0 + (if flag then 1 else 0)) + (if flag then 1 else 0), 0 + 1, false,
            [[StepAct.attemptUpsert, StepAct.commitAct, StepAct.rollback,
              StepAct.sleepSec 5],
             [StepAct.attemptUpsert, StepAct.commitAct]]⟩ := by
          simp [runRecord, runIter, h0, h1, hu]
        rw [hr]
        refine ⟨by norm_num, ?_, ?_, ?_, ?_⟩
        · intro j hj
          simp only [List.length_cons, List.length_nil] at hj
          obtain rfl : j = 0 := by omega
          exact ⟨h0, rfl⟩
        · intro h
          simp at h
        · intro hall _
          have hx := hall 1 (by norm_num)
          simp [h1] at hx
        · intro hor
          rcases hor with h | h <;> simp [h0] at h
      · rcases h2 : ev 2 with _ | _ | _ | _
        · have hr : runRecord pkKeys row ev store = ⟨store,
              (0 + (if flag then 1 else 0)) + (if flag then 1 else 0), 0, true,
              [[StepAct.attemptUpsert, StepAct.commitAct, StepAct.rollback,
                StepAct.sleepSec 5],
               [StepAct.attemptUpsert, StepAct.commitAct, StepAct.rollback,
                StepAct.sleepSec 5],
               [StepAct.attemptUpsert, StepAct.rollback, StepAct.raiseUpload]]⟩ := by
            simp [runRecord, runIter, h0, h1, h2, hu]
          rw [hr]
          refine ⟨by norm_num, ?_, ?_, ?_, ?_⟩
          · intro j hj
            simp only [List.length_cons, List.length_nil] at hj
            rcases (by omega : j = 0 ∨ j = 1) with rfl | rfl
            · exact ⟨h0, rfl⟩
            · exact ⟨h1, rfl⟩
          · intro _
            exact ⟨rfl, rfl, ⟨[StepAct.attemptUpsert], rfl⟩⟩
          · intro hall _
            have hx := hall 2 (by norm_num)
            simp [h2] at hx
          · intro hor
            rcases hor with h | h <;> simp [h0] at h
        · have hr : runRecord pkKeys row ev store = ⟨pending,
              ((0 + (if flag then 1 else 0)) + (if flag then 1 else 0)) +
                (if flag then 1 else 0), 0 + 1, false,
              [[StepAct.attemptUpsert, StepAct.commitAct, StepAct.rollback,
                StepAct.sleepSec 5],
               [StepAct.attemptUpsert, StepAct.commitAct, StepAct.rollback,
                StepAct.sleepSec 5],
               [StepAct.attemptUpsert, StepAct.commitAct]]⟩ := by
            simp [runRecord, runIter, h0, h1, h2, hu]
          rw [hr]
          refine ⟨by norm_num, ?_, ?_, ?_, ?_⟩
          · intro j hj
            simp only [List.length_cons, List.length_nil] at hj
            rcases (by omega : j = 0 ∨ j = 1) with rfl | rfl
            · exact ⟨h0, rfl⟩
            · exact ⟨h1, rfl⟩
          · intro h
            simp at h
          · intro hall _
            have hx := hall 2 (by norm_num)
            simp [h2] at hx
          · intro hor
            rcases hor with h | h <;> simp [h0] at h
        · have hr : runRecord pkKeys row ev store = ⟨store,
              ((0 + (if flag then 1 else 0)) + (if flag then 1 else 0)) +
                (if flag then 1 else 0), 0, true,
              [[StepAct.attemptUpsert, StepAct.commitAct, StepAct.rollback,
                StepAct.sleepSec 5],
               [StepAct.attemptUpsert, StepAct.commitAct, StepAct.rollback,
                StepAct.sleepSec 5],
               [StepAct.attemptUpsert, StepAct.commitAct, StepAct.rollback,
                StepAct.raiseUpload]]⟩ := by
            simp [runRecord, runIter, h0, h1, h2, hu]
          rw [hr]
          refine ⟨by norm_num, ?_, ?_, ?_, ?_⟩
          · intro j hj
            simp only [List.length_cons, List.length_nil] at hj
            rcases (by omega : j = 0 ∨ j = 1) with rfl | rfl
            · exact ⟨h0, rfl⟩
            · exact ⟨h1, rfl⟩
          · intro _
            exact ⟨rfl, rfl,
              ⟨[StepAct.attemptUpsert, StepAct.commitAct], rfl⟩⟩
          · intro _ _
            exact ⟨rfl, rfl⟩
          · intro hor
            rcases hor with h | h <;> simp [h0] at h
        · have hr : runRecord pkKeys row ev store = ⟨store,
              ((0 + (if flag then 1 else 0)) + (if flag then 1 else 0)) +
                (if flag then 1 else 0), 0, true,
              [[StepAct.attemptUpsert, StepAct.commitAct, StepAct.rollback,
                StepAct.sleepSec 5],
               [StepAct.attemptUpsert, StepAct.commitAct, StepAct.rollback,
                StepAct.sleepSec 5],
               [StepAct.attemptUpsert, StepAct.commitAct, StepAct.rollback,
                StepAct.raiseUpload]]⟩ := by
            simp [runRecord, runIter, h0, h1, h2, hu]
          rw [hr]
          refine ⟨by norm_num, ?_, ?_, ?_, ?_⟩
          · intro j hj
            simp only [List.length_cons, List.length_nil] at hj
            rcases (by omega : j = 0 ∨ j = 1) with rfl | rfl
            · exact ⟨h0, rfl⟩
            · exact ⟨h1, rfl⟩
          · intro _
            exact ⟨rfl, rfl,
              ⟨[StepAct.attemptUpsert, StepAct.commitAct], rfl⟩⟩
          · intro hall _
            have hx := hall 2 (by norm_num)
            simp [h2] at hx
          · intro hor
            rcases hor with h | h <;> simp [h0] at h
      · have hr : runRecord pkKeys row ev store = ⟨store,
            (0 + (if flag then 1 else 0)) + (if flag then 1 else 0), 0, true,
            [[StepAct.attemptUpsert, StepAct.commitAct, StepAct.rollback,
              StepAct.sleepSec 5],
             [StepAct.attemptUpsert, StepAct.commitAct, StepAct.rollback,
              StepAct.raiseUpload]]⟩ := by
          simp [runRecord, runIter, h0, h1, hu]
        rw [hr]
        refine ⟨by norm_num, ?_, ?_, ?_, ?_⟩
        · intro j hj
          simp only [List.length_cons, List.length_nil] at hj
          obtain rfl : j = 0 := by omega
          exact ⟨h0, rfl⟩
        · intro _
          exact ⟨rfl, rfl,
            ⟨[StepAct.attemptUpsert, StepAct.commitAct], rfl⟩⟩
        · intro hall _
          have hx := hall 1 (by norm_num)
          simp [h1] at hx
        · intro hor
          rcases hor with h | h <;> simp [h0] at h
  · -- first attempt: non-transient commit failure
    rcases hu : upsert pkKeys store row with e | sb
    · have hr : runRecord pkKeys row ev store = ⟨store, 0, 0, true,
          [[StepAct.attemptUpsert, StepAct.rollback, StepAct.raiseUpload]]⟩ := by
        simp [runRecord, runIter, h0, hu]
      rw [hr]
      refine ⟨by norm_num, ?_, ?_, ?_, ?_⟩
      · intro j hj
        exact absurd hj (by norm_num)
      · intro _
        exact ⟨rfl, rfl, ⟨[StepAct.attemptUpsert], rfl⟩⟩
      · intro _ hok
        obtain ⟨sb2, heq⟩ := hok
        simp [hu] at heq
      · intro _
        exact ⟨rfl, rfl⟩
    · obtain ⟨pending, flag⟩ := sb
      have hr : runRecord pkKeys row ev store = ⟨store,
          0 + (if flag then 1 else 0), 0, true,
          [[StepAct.attemptUpsert, StepAct.commitAct, StepAct.rollback,
            StepAct.raiseUpload]]⟩ := by
        simp [runRecord, runIter, h0, hu]
      rw [hr]
      refine ⟨by norm_num, ?_, ?_, ?_, ?_⟩
      · intro j hj
        exact absurd hj (by norm_num)
      · intro _
        exact ⟨rfl, rfl,
          ⟨[StepAct.attemptUpsert, StepAct.commitAct], rfl⟩⟩
      · intro hall _
        have hx := hall 0 (by norm_num)
        simp [h0] at hx
      · intro _
        exact ⟨rfl, rfl⟩

/-! Helper lemmas for the parser claim. -/

theorem findTuplesAux_nil (fuel : Nat) : findTuplesAux fuel [] = [] := by
  cases fuel <;> rfl

theorem quoteCount_eq_zero (l : List Char) (h : squote ∉ l) : quoteCount l = 0 := by
  unfold quoteCount
  rw [List.countP_eq_zero]
  intro c hc
  simp only [decide_eq_true_eq]
  exact fun hcq => h (hcq ▸ hc)

theorem stripBy_wrap (p : Char → Bool) (c d : Char) (x : List Char)
    (hc : p c = false) (hd : p d = false) :
    stripBy p (c :: x ++ [d]) = c :: x ++ [d] := by
  have hc2 : ¬(p c = true) := by simp [hc]
  have hd2 : ¬(p d = true) := by simp [hd]
  unfold stripBy
  rw [show (c :: x ++ [d] : List Char) = c :: (x ++ [d]) from by simp]
  rw [List.dropWhile_cons_of_neg hc2]
  rw [show (c :: (x ++ [d]) : List Char) = (c :: x) ++ [d] from by simp]
  rw [List.reverse_concat]
  rw [List.dropWhile_cons_of_neg hd2]
  rw [List.reverse_cons, List.reverse_reverse]

theorem stripParens_wrap (c d : Char) (x : List Char)
    (hc1 : c ≠ lparen) (hc2 : c ≠ rparen) (hd1 : d ≠ lparen) (hd2 : d ≠ rparen) :
    stripParens (lparen :: ((c :: x ++ [d]) ++ [rparen])) = c :: x ++ [d] := by
  unfold stripParens stripBy
  rw [List.dropWhile_cons_of_pos (by decide)]
  rw [show ((c :: x ++ [d] : List Char) ++ [rparen]) =
    c :: (x ++ [d] ++ [rparen]) from by simp]
  rw [List.dropWhile_cons_of_neg (by simp [hc1, hc2])]
  rw [show (c :: (x ++ [d] ++ [rparen]) : List Char) =
    ((c :: x) ++ [d]) ++ [rparen] from by simp]
  rw [List.reverse_concat]
  rw [List.dropWhile_cons_of_pos (by decide)]
  rw [List.reverse_concat]
  rw [List.dropWhile_cons_of_neg (by simp [hd1, hd2])]
  rw [List.reverse_cons, List.reverse_reverse]

theorem scanTuple_quote (t : List Char) (rest : List Char) (seen : Bool)
    (h1 : squote ∉ t) (h2 : bslash ∉ t) :
    scanTuple true false seen (t ++ squote :: rest) =
      (scanTuple false false true rest).map
        (fun pr => (t ++ squote :: pr.1, pr.2)) := by
  induction t generalizing seen with
  | nil =>
    simp [scanTuple]
  | cons c tl ih =>
    have hc1 : ¬(c = squote) := fun hq => h1 (by simp [hq])
    have hc2 : ¬(c = bslash) := fun hq => h2 (by simp [hq])
    have ht1 : squote ∉ tl := fun hm => h1 (List.mem_cons_of_mem _ hm)
    have ht2 : bslash ∉ tl := fun hm => h2 (List.mem_cons_of_mem _ hm)
    rw [List.cons_append, scanTuple]
    rw [if_neg (by simp), if_neg hc1]
    rw [show (decide (c = bslash)) = false from decide_eq_false hc2]
    rw [ih seen ht1 ht2, Option.map_map]
    rfl

theorem scanTuple_tail_concrete :
    scanTuple false false true (", 1, NULL)".toList) =
      some ((", 1, NULL)".toList), []) := by decide

theorem splitFieldsAux_skip_noquote (t : List Char) (cur : List Char)
    (h1 : squote ∉ t) :
    splitFieldsAux (t ++ squote :: ", 1, NULL".toList) false cur =
      splitFieldsAux (squote :: ", 1, NULL".toList) false (t.reverse ++ cur) := by
  induction t generalizing cur with
  | nil => simp
  | cons c tl ih =>
    have ht1 : squote ∉ tl := fun hm => h1 (List.mem_cons_of_mem _ hm)
    have hcond : ¬(c = Char.ofNat 44 ∧
        quoteCount (tl ++ squote :: ", 1, NULL".toList) % 2 = 0) := by
      rintro ⟨-, hpar⟩
      rw [show quoteCount (tl ++ squote :: ", 1, NULL".toList) =
          quoteCount tl + quoteCount (squote :: ", 1, NULL".toList) from
          List.countP_append _ _ _] at hpar
      rw [quoteCount_eq_zero tl ht1] at hpar
      have : quoteCount (squote :: ", 1, NULL".toList) = 1 := by decide
      omega
    rw [List.cons_append, splitFieldsAux, if_neg (by simp), if_neg hcond,
      ih (c :: cur) ht1]
    simp

theorem isPrefixOf_eq_false_of_not_mem (pat cs : List Char) (c : Char)
    (hc : c ∈ pat) (h : c ∉ cs) : pat.isPrefixOf cs = false := by
  cases hb : List.isPrefixOf pat cs with
  | false => rfl
  | true =>
    rw [List.isPrefixOf_iff_prefix] at hb
    exact absurd (hb.sublist.subset hc) h

theorem pyReplace_no_occur (fuel : Nat) (cs pat rep : List Char) (c : Char)
    (hc : c ∈ pat) (h : c ∉ cs) : pyReplace fuel cs pat rep = cs := by
  induction fuel generalizing cs with
  | zero => rfl
  | succ n ih =>
    cases cs with
    | nil =>
      simp [pyReplace, isPrefixOf_eq_false_of_not_mem pat [] c hc (by simp)]
    | cons c2 rest =>
      have hrest : c ∉ rest := fun hm => h (List.mem_cons_of_mem _ hm)
      simp [pyReplace, isPrefixOf_eq_false_of_not_mem pat (c2 :: rest) c hc h,
        ih rest hrest]

theorem unescapeQuoted_no_quote (t : List Char) (h1 : squote ∉ t) :
    unescapeQuoted t = t := by
  unfold unescapeQuoted
  rw [pyReplace_no_occur _ _ _ _ squote (by decide) h1]
  rw [pyReplace_no_occur _ _ _ _ squote (by decide) h1]

theorem parseField_quoted (t : List Char) (h1 : squote ∉ t) :
    parseField (squote :: t ++ [squote]) = Val.vstr (String.mk t) := by
  have hstrip : pyStrip (squote :: t ++ [squote]) = squote :: t ++ [squote] :=
    stripBy_wrap _ squote squote t (by decide) (by decide)
  have hU : ¬(pyUpper (squote :: t ++ [squote]) = "NULL".toList) := by
    intro hEq
    have hh := congrArg List.head? hEq
    simp only [pyUpper, List.map_cons, List.head?_cons] at hh
    exact absurd (Option.some.inj hh) (by decide)
  have hlast : (squote :: t ++ [squote] : List Char).getLast? = some squote := by
    rw [show squote :: t ++ [squote] = (squote :: t) ++ [squote] from rfl]
    exact List.getLast?_concat _
  have hcond : ¬(pyUpper (squote :: t ++ [squote]) = "NULL".toList ∨
      (squote :: t ++ [squote] : List Char) = []) := by
    rintro (hN | hnil)
    · exact hU hN
    · simp at hnil
  unfold parseField
  rw [hstrip, if_neg hcond]
  rw [if_pos ⟨rfl, hlast⟩]
  rw [show ((squote :: t ++ [squote]).drop 1 : List Char) = t ++ [squote] from rfl]
  rw [List.dropLast_concat, unescapeQuoted_no_quote t h1]

/-- The claimed tuple text, as characters: an opening parenthesis, a quoted
field with arbitrary quote-free and backslash-free content, and then the
concrete fields 1 and NULL. -/
def tupleChars (t : List Char) : List Char :=
  lparen :: squote :: (t ++ squote :: ", 1, NULL)".toList)

/-- C7: the values-clause parser is quote-aware: for any quote-free,
backslash-free field text (it may contain commas and parentheses), the
tuple containing it as a single-quoted literal followed by the fields
`1` and `NULL` is recognized by the findall as exactly one tuple, the
interior splits into exactly 3 fields despite the commas or parentheses
inside the quoted literal, and the fields parse to the text, the integer 1
and null. -/
theorem quote_aware_tuple_parsing (t : List Char)
    (h1 : squote ∉ t) (h2 : bslash ∉ t) :
    findTuples (String.mk (tupleChars t)) = [tupleChars t] ∧
    parseTuple (tupleChars t) = [Val.vstr (String.mk t), Val.vint 1, Val.vnull] ∧
    (parseTuple (tupleChars t)).length = 3 := by
  have hsc : scanTuple false false false
      (squote :: (t ++ squote :: ", 1, NULL)".toList)) =
      some (squote :: (t ++ squote :: ", 1, NULL)".toList), []) := by
    rw [scanTuple, if_neg (by decide), if_neg (by decide), if_pos rfl]
    rw [scanTuple_quote t _ false h1 h2, scanTuple_tail_concrete]
    rfl
  have hfind : findTuples (String.mk (tupleChars t)) = [tupleChars t] := by
    unfold findTuples
    rw [show (String.mk (tupleChars t)).toList = tupleChars t from rfl]
    rw [show (tupleChars t).length =
      (squote :: (t ++ squote :: ", 1, NULL)".toList)).length + 1 from rfl]
    rw [show tupleChars t =
      lparen :: (squote :: (t ++ squote :: ", 1, NULL)".toList)) from rfl]
    rw [findTuplesAux, if_pos rfl, hsc]
    simp [findTuplesAux_nil, tupleChars]
  have hform : tupleChars t =
      lparen :: ((squote :: (t ++ squote :: ", 1, NUL".toList) ++
        [Char.ofNat 76]) ++ [rparen]) := by
    unfold tupleChars
    rw [show (", 1, NULL)".toList : List Char) =
      ", 1, NUL".toList ++ [Char.ofNat 76] ++ [rparen] from rfl]
    simp
  have hstrip : stripParens (tupleChars t) =
      squote :: (t ++ squote :: ", 1, NULL".toList) := by
    rw [hform, stripParens_wrap squote (Char.ofNat 76)
      (t ++ squote :: ", 1, NUL".toList) (by decide) (by decide) (by decide)
      (by decide)]
    rw [show (", 1, NULL".toList : List Char) =
      ", 1, NUL".toList ++ [Char.ofNat 76] from rfl]
    simp
  have hsplit : splitFields (squote :: (t ++ squote :: ", 1, NULL".toList)) =
      [squote :: t ++ [squote], "1".toList, "NULL".toList] := by
    unfold splitFields
    rw [splitFieldsAux, if_neg (by simp),
      if_neg (by rintro ⟨hq, -⟩; exact absurd hq (by decide))]
    rw [splitFieldsAux_skip_noquote t [squote] h1]
    rw [splitFieldsAux, if_neg (by simp),
      if_neg (by rintro ⟨hq, -⟩; exact absurd hq (by decide))]
    rw [show (", 1, NULL".toList : List Char) =
      Char.ofNat 44 :: " 1, NULL".toList from rfl]
    rw [splitFieldsAux, if_neg (by simp), if_pos ⟨rfl, by decide⟩]
    rw [show splitFieldsAux (" 1, NULL".toList) true [] =
      ["1".toList, "NULL".toList] from by decide]
    simp
  have hfields : parseTuple (tupleChars t) =
      [Val.vstr (String.mk t), Val.vint 1, Val.vnull] := by
    unfold parseTuple
    rw [hstrip, hsplit]
    simp only [List.map_cons, List.map_nil]
    rw [parseField_quoted t h1]
    rw [show parseField ("1".toList) = Val.vint 1 from by decide]
    rw [show parseField ("NULL".toList) = Val.vnull from by decide]
    simp [badDataFix]
  exact ⟨hfind, hfields, by simp [hfields]⟩

/-- C8 witness: three consecutive transient commit failures on a record that
would be an update exhaust the budget fatally; a first-attempt upsert
exception is immediately fatal. -/
theorem worker_retry_policy_witness :
    ((runRecord ["id"] sampleNew (fun _ => AttemptEv.commitOperational)
        [sampleStored]).fatal = true ∧
      (runRecord ["id"] sampleNew (fun _ => AttemptEv.commitOperational)
        [sampleStored]).trace.length = 3) ∧
    ((runRecord ["id"] sampleNew (fun _ => AttemptEv.upsertRaises)
        [sampleStored]).fatal = true ∧
      (runRecord ["id"] sampleNew (fun _ => AttemptEv.upsertRaises)
        [sampleStored]).trace.length = 1) :=
  ⟨(worker_retry_policy ["id"] sampleNew (fun _ => AttemptEv.commitOperational)
      [sampleStored]).2.2.2.1 (fun _ _ => rfl)
      ⟨([sampleUpdated], true), by decide⟩,
   (worker_retry_policy ["id"] sampleNew (fun _ => AttemptEv.upsertRaises)
      [sampleStored]).2.2.2.2 (Or.inl rfl)⟩

/-- C7 witness: the spec's own example tuple. -/
theorem quote_aware_tuple_parsing_witness :
    findTuples (String.mk (tupleChars ("Monaco, GP".toList))) =
      [tupleChars ("Monaco, GP".toList)] ∧
    parseTuple (tupleChars ("Monaco, GP".toList)) =
      [Val.vstr (String.mk ("Monaco, GP".toList)), Val.vint 1, Val.vnull] ∧
    (parseTuple (tupleChars ("Monaco, GP".toList))).length = 3 :=
  quote_aware_tuple_parsing ("Monaco, GP".toList) (by decide) (by decide)

/-! Predicates and lemmas for the upsert-idempotence claim. -/

/-- Every primary-key value of the row is present and reflexive under the
SQL comparison (not NULL and not NaN), so the row can be found again by its
own key projection. -/
def pkSelfOk (pkKeys : List String) (r : Obj) : Prop :=
  ∀ k ∈ pkKeys, ∃ v, objGet r k = some v ∧ Val.sqlEq v v = true

/-- A well-formed data row as produced by the metadata step: unique column
labels, a string fingerprint under `dwh_hash`, a `dwh_valid_from` value, and
usable primary-key values. -/
def GoodRow (pkKeys : List String) (r : Obj) : Prop :=
  (r.map Prod.fst).Nodup ∧
  (∃ h : String, objGet r "dwh_hash" = some (Val.vstr h)) ∧
  (∃ vf, objGet r "dwh_valid_from" = some vf) ∧
  pkSelfOk pkKeys r

/-- Primary-key columns are entity columns, not `dwh_` metadata columns. -/
def GoodKeys (pkKeys : List String) : Prop :=
  ∀ k ∈ pkKeys, strStartsWith k "dwh_" = false

/-- Two rows with different primary-key projections: some key column's
values fail the SQL comparison. -/
def PkDistinct (pkKeys : List String) (r1 r2 : Obj) : Prop :=
  ∃ k ∈ pkKeys, ∀ v1 v2, objGet r1 k = some v1 → objGet r2 k = some v2 →
    Val.sqlEq v1 v2 = false

/-- The store has a current row for the record: the first row matching the
record's primary-key projection carries the record's fingerprint. -/
def HasCurrent (pkKeys : List String) (s : List Obj) (r : Obj) : Prop :=
  ∃ pv i obj h, pkExtract pkKeys r = Except.ok pv ∧
    firstIdx (pkMatch pv) s = some i ∧ s.get? i = some obj ∧
    objGet r "dwh_hash" = some (Val.vstr h) ∧
    objGet obj "dwh_hash" = some (Val.vstr h)

theorem sqlEq_symm (v w : Val) : Val.sqlEq v w = Val.sqlEq w v := by
  cases v <;> cases w <;> simp [Val.sqlEq] <;>
    (constructor <;> (intro h; exact h.symm))

theorem sqlEq_trans (w u v : Val) (h1 : Val.sqlEq w u = true)
    (h2 : Val.sqlEq w v = true) : Val.sqlEq u v = true := by
  cases w <;> cases u <;> cases v <;> simp_all [Val.sqlEq]

theorem pkExtract_ok (pkKeys : List String) (r : Obj)
    (h : ∀ k ∈ pkKeys, (objGet r k).isSome = true) :
    pkExtract pkKeys r =
      Except.ok (pkKeys.map (fun k => (k, (objGet r k).getD Val.vnull))) := by
  induction pkKeys with
  | nil => rfl
  | cons k tl ih =>
    have hk := h k (by simp)
    obtain ⟨v, hv⟩ := Option.isSome_iff_exists.mp hk
    have htl := ih (fun k2 hk2 => h k2 (by simp [hk2]))
    unfold pkExtract
    rw [show rowGet r k = Except.ok v from by simp [rowGet, hv]]
    rw [show (pkExtract tl r : Except UpsertErr _) =
      Except.ok (tl.map (fun k => (k, (objGet r k).getD Val.vnull))) from htl]
    simp [hv]
    rfl

theorem pkExtract_ok_inv (pkKeys : List String) (r : Obj)
    (pv : List (String × Val)) (h : pkExtract pkKeys r = Except.ok pv) :
    pv = pkKeys.map (fun k => (k, (objGet r k).getD Val.vnull)) ∧
    ∀ k ∈ pkKeys, (objGet r k).isSome = true := by
  induction pkKeys generalizing pv with
  | nil =>
    refine ⟨?_, by simp⟩
    cases h
    rfl
  | cons k tl ih =>
    unfold pkExtract at h
    cases hv : objGet r k with
    | none => rw [show rowGet r k = Except.error (UpsertErr.keyError k) from
        by simp [rowGet, hv]] at h; cases h
    | some v =>
      rw [show rowGet r k = Except.ok v from by simp [rowGet, hv]] at h
      cases htl : pkExtract tl r with
      | error e => rw [htl] at h; cases h
      | ok rest =>
        rw [htl] at h
        cases h
        obtain ⟨h1, h2⟩ := ih rest htl
        constructor
        · simp [hv, h1]
        · intro k2 hk2
          rcases List.mem_cons.mp hk2 with rfl | hk2
          · simp [hv]
          · exact h2 k2 hk2

theorem firstIdx_some_inv (p : Obj → Bool) (s : List Obj) (i : Nat)
    (h : firstIdx p s = some i) :
    ∃ obj, s.get? i = some obj ∧ p obj = true := by
  induction s generalizing i with
  | nil => cases h
  | cons o tl ih =>
    unfold firstIdx at h
    by_cases hp : p o = true
    · rw [if_pos hp] at h
      cases h
      exact ⟨o, rfl, hp⟩
    · rw [if_neg hp] at h
      cases hfi : firstIdx p tl with
      | none => rw [hfi] at h; cases h
      | some j =>
        rw [hfi] at h
        cases h
        obtain ⟨obj, hget, hpo⟩ := ih j hfi
        exact ⟨obj, by simpa using hget, hpo⟩

theorem firstIdx_set_self (p : Obj → Bool) (s : List Obj) (i : Nat)
    (upd : Obj) (h : firstIdx p s = some i) (hp : p upd = true) :
    firstIdx p (s.set i upd) = some i ∧ (s.set i upd).get? i = some upd := by
  induction s generalizing i with
  | nil => cases h
  | cons o tl ih =>
    unfold firstIdx at h
    by_cases hpo : p o = true
    · rw [if_pos hpo] at h
      cases h
      simp [List.set_cons_zero, firstIdx, hp]
    · rw [if_neg hpo] at h
      cases hfi : firstIdx p tl with
      | none => rw [hfi] at h; cases h
      | some j =>
        rw [hfi] at h
        cases h
        obtain ⟨h1, h2⟩ := ih j hfi
        refine ⟨?_, ?_⟩
        · simp [List.set_cons_succ, firstIdx, hpo, h1]
        · simpa using h2

theorem firstIdx_set_other (p : Obj → Bool) (s : List Obj) (i j : Nat)
    (upd : Obj) (h : firstIdx p s = some i) (hj : j ≠ i)
    (hp : p upd = false) :
    firstIdx p (s.set j upd) = some i ∧ (s.set j upd).get? i = s.get? i := by
  induction s generalizing i j with
  | nil => cases h
  | cons o tl ih =>
    unfold firstIdx at h
    by_cases hpo : p o = true
    · rw [if_pos hpo] at h
      cases h
      cases j with
      | zero => exact absurd rfl hj
      | succ j2 => simp [List.set_cons_succ, firstIdx, hpo]
    · rw [if_neg hpo] at h
      cases hfi : firstIdx p tl with
      | none => rw [hfi] at h; cases h
      | some i2 =>
        rw [hfi] at h
        cases h
        cases j with
        | zero =>
          simp only [List.set_cons_zero, firstIdx,
            show ¬(p upd = true) from by simp [hp], if_neg, hfi]
          simp
        | succ j2 =>
          have hj2 : j2 ≠ i2 := fun hh => hj (by rw [hh])
          obtain ⟨h1, h2⟩ := ih i2 j2 hfi hj2
          refine ⟨?_, ?_⟩
          · simp [List.set_cons_succ, firstIdx, hpo, h1]
          · simpa using h2

theorem firstIdx_append_some (p : Obj → Bool) (s : List Obj) (i : Nat)
    (x : Obj) (h : firstIdx p s = some i) :
    firstIdx p (s ++ [x]) = some i ∧ (s ++ [x]).get? i = s.get? i := by
  induction s generalizing i with
  | nil => cases h
  | cons o tl ih =>
    unfold firstIdx at h
    by_cases hpo : p o = true
    · rw [if_pos hpo] at h
      cases h
      simp [firstIdx, hpo]
    · rw [if_neg hpo] at h
      cases hfi : firstIdx p tl with
      | none => rw [hfi] at h; cases h
      | some i2 =>
        rw [hfi] at h
        cases h
        obtain ⟨h1, h2⟩ := ih i2 hfi
        refine ⟨?_, ?_⟩
        · simp [List.cons_append, firstIdx, hpo, h1]
        · simpa using h2

theorem firstIdx_append_none (p : Obj → Bool) (s : List Obj) (x : Obj)
    (h : firstIdx p s = none) (hx : p x = true) :
    firstIdx p (s ++ [x]) = some s.length ∧
    (s ++ [x]).get? s.length = some x := by
  induction s with
  | nil => simp [firstIdx, hx]
  | cons o tl ih =>
    unfold firstIdx at h
    by_cases hpo : p o = true
    · rw [if_pos hpo] at h
      cases h
    · rw [if_neg hpo] at h
      cases hfi : firstIdx p tl with
      | some j => rw [hfi] at h; cases h
      | none =>
        obtain ⟨h1, h2⟩ := ih hfi
        refine ⟨?_, ?_⟩
        · simp [List.cons_append, firstIdx, hpo, h1]
        · simpa using h2

theorem ok_bind {α β : Type} (a : α) (f : α → Except UpsertErr β) :
    (Except.ok a >>= f) = f a := rfl

theorem objGet_some_mem (r : Obj) (k : String) (v : Val)
    (h : objGet r k = some v) : (k, v) ∈ r := by
  induction r with
  | nil => cases h
  | cons kv tl ih =>
    by_cases hk : kv.1 = k
    · rw [objGet, if_pos (by simp [hk])] at h
      cases h
      subst hk
      exact List.mem_cons_self _ _
    · rw [objGet, if_neg (by simp [hk])] at h
      exact List.mem_cons_of_mem _ (ih h)

theorem pkMatch_mem (pv : List (String × Val)) (o : Obj)
    (h : pkMatch pv o = true) (kv : String × Val) (hm : kv ∈ pv) :
    Val.sqlEq (colVal o kv.1) kv.2 = true := by
  unfold pkMatch at h
  exact List.all_eq_true.mp h kv hm

theorem pkMatch_false_of (pv : List (String × Val)) (o : Obj)
    (kv : String × Val) (hm : kv ∈ pv)
    (h : Val.sqlEq (colVal o kv.1) kv.2 = false) : pkMatch pv o = false := by
  unfold pkMatch
  rw [List.all_eq_false]
  exact ⟨kv, hm, by simp [h]⟩

theorem objGet_foldl_objSet_not_mem (es : List (String × Val)) (o : Obj)
    (k : String) (h : ∀ kv ∈ es, kv.1 ≠ k) :
    objGet (es.foldl
      (fun o kv => if strStartsWith kv.1 "dwh_" then o else objSet o kv.1 kv.2)
      o) k = objGet o k := by
  induction es generalizing o with
  | nil => rfl
  | cons kv tl ih =>
    have hk := h kv (by simp)
    have htl : ∀ kv2 ∈ tl, kv2.1 ≠ k := fun kv2 hm => h kv2 (by simp [hm])
    by_cases hd : strStartsWith kv.1 "dwh_" = true
    · simp only [List.foldl_cons, if_pos hd]
      exact ih o htl
    · simp only [List.foldl_cons, if_neg hd]
      rw [ih _ htl, objGet_objSet_of_ne _ _ _ _ hk]

theorem objGet_foldl_objSet_mem (es : List (String × Val)) (o : Obj)
    (k : String) (v : Val) (hmem : (k, v) ∈ es)
    (hnd : (es.map Prod.fst).Nodup) (hk : strStartsWith k "dwh_" = false) :
    objGet (es.foldl
      (fun o kv => if strStartsWith kv.1 "dwh_" then o else objSet o kv.1 kv.2)
      o) k = some v := by
  induction es generalizing o with
  | nil => cases hmem
  | cons kv tl ih =>
    rw [List.map_cons, List.nodup_cons] at hnd
    rcases List.mem_cons.mp hmem with heq | hmem2
    · cases heq
      have hnone : ∀ kv2 ∈ tl, kv2.1 ≠ k := by
        intro kv2 hm2 hk2
        have hmm := List.mem_map_of_mem Prod.fst hm2
        rw [hk2] at hmm
        exact hnd.1 hmm
      rw [List.foldl_cons]
      rw [show (if strStartsWith (k, v).1 "dwh_" then o
          else objSet o (k, v).1 (k, v).2) = objSet o k v from by simp [hk]]
      rw [objGet_foldl_objSet_not_mem tl _ k hnone]
      exact objGet_objSet_self _ _ _
    · rw [List.foldl_cons]
      exact ih _ hmem2 hnd.2

theorem pyEq_getD_vstr_inv (x : Option Val) (h : String)
    (heq : Val.pyEq (x.getD Val.vnull) (Val.vstr h) = true) :
    x = some (Val.vstr h) := by
  cases x with
  | none => simp [Val.pyEq] at heq
  | some v => cases v <;> simp_all [Val.pyEq]

theorem upsert_noop_of_current (pkKeys : List String) (s : List Obj) (r : Obj)
    (hcur : HasCurrent pkKeys s r) :
    upsert pkKeys s r = Except.ok (s, false) := by
  obtain ⟨pv, i, obj, h, hpk, hfi, hget, hrh, hoh⟩ := hcur
  unfold upsert
  simp only [hpk, ok_bind,
    show rowGet r "dwh_hash" = Except.ok (Val.vstr h) from by simp [rowGet, hrh],
    hfi, hget, Option.getD_some, hoh]
  simp [Val.pyEq]
  rfl

theorem upsert_good (pkKeys : List String) (s : List Obj) (r : Obj)
    (hg : GoodRow pkKeys r) (hkeys : GoodKeys pkKeys) :
    ∃ s2 b, upsert pkKeys s r = Except.ok (s2, b) ∧ HasCurrent pkKeys s2 r ∧
      (∀ r0, HasCurrent pkKeys s r0 → PkDistinct pkKeys r0 r →
        HasCurrent pkKeys s2 r0) := by
  obtain ⟨hnd, ⟨h, hrh⟩, ⟨vf, hvf⟩, hself⟩ := hg
  have hsome : ∀ k ∈ pkKeys, (objGet r k).isSome = true := by
    intro k hk
    obtain ⟨v, hv, -⟩ := hself k hk
    simp [hv]
  have hpk := pkExtract_ok pkKeys r hsome
  set pv := pkKeys.map (fun k => (k, (objGet r k).getD Val.vnull)) with hpv
  have hpv_mem : ∀ kv ∈ pv, kv.1 ∈ pkKeys ∧ objGet r kv.1 = some kv.2 ∧
      Val.sqlEq kv.2 kv.2 = true := by
    intro kv hm
    rw [hpv] at hm
    obtain ⟨k, hk, hkv⟩ := List.mem_map.mp hm
    obtain ⟨v, hv, hsq⟩ := hself k hk
    cases hkv
    refine ⟨hk, ?_, ?_⟩ <;> simp [hv, hsq]
  have hmatch_self : pkMatch pv r = true := by
    unfold pkMatch
    rw [List.all_eq_true]
    intro kv hm
    obtain ⟨-, hv, hsq⟩ := hpv_mem kv hm
    simp [colVal, hv, hsq]
  have hkd : ∀ k ∈ pkKeys, k ≠ "dwh_hash" ∧ k ≠ "dwh_mofified_at" := by
    intro k hk
    have hks := hkeys k hk
    constructor
    · intro he
      rw [he] at hks
      exact absurd hks (by decide)
    · intro he
      rw [he] at hks
      exact absurd hks (by decide)
  cases hfi : firstIdx (pkMatch pv) s with
  | none =>
    obtain ⟨hf1, hf2⟩ := firstIdx_append_none (pkMatch pv) s r hfi hmatch_self
    refine ⟨s ++ [r], true, ?_, ?_, ?_⟩
    · unfold upsert
      simp only [hpk, ok_bind,
        show rowGet r "dwh_hash" = Except.ok (Val.vstr h) from by
          simp [rowGet, hrh], hfi]
      rfl
    · exact ⟨pv, s.length, r, h, hpk, hf1, hf2, hrh, hrh⟩
    · intro r0 hcur0 _
      obtain ⟨pv0, i0, obj0, h0, hpk0, hfi0, hget0, hrh0, hoh0⟩ := hcur0
      obtain ⟨hg1, hg2⟩ := firstIdx_append_some (pkMatch pv0) s i0 r hfi0
      exact ⟨pv0, i0, obj0, h0, hpk0, hg1, by rw [hg2]; exact hget0, hrh0, hoh0⟩
  | some i =>
    obtain ⟨obj, hget, hpm⟩ := firstIdx_some_inv _ _ _ hfi
    by_cases hhash : Val.pyEq ((objGet obj "dwh_hash").getD Val.vnull)
        (Val.vstr h) = true
    · have hobjh := pyEq_getD_vstr_inv _ _ hhash
      refine ⟨s, false, ?_, ⟨pv, i, obj, h, hpk, hfi, hget, hrh, hobjh⟩,
        fun r0 hcur0 _ => hcur0⟩
      unfold upsert
      simp only [hpk, ok_bind, show rowGet r "dwh_hash" =
        Except.ok (Val.vstr h) from by simp [rowGet, hrh], hfi, hget,
        Option.getD_some]
      rw [if_pos hhash]
      rfl
    · set upd2 := objSet (objSet (r.foldl
        (fun o kv => if strStartsWith kv.1 "dwh_" then o
          else objSet o kv.1 kv.2) obj) "dwh_mofified_at" vf) "dwh_hash"
        (Val.vstr h) with hupd2
      have hupd_hash : objGet upd2 "dwh_hash" = some (Val.vstr h) := by
        rw [hupd2]
        exact objGet_objSet_self _ _ _
      have hupd_pk : ∀ kv ∈ pv, objGet upd2 kv.1 = some kv.2 := by
        intro kv hm
        obtain ⟨hk, hv, -⟩ := hpv_mem kv hm
        obtain ⟨hne1, hne2⟩ := hkd kv.1 hk
        rw [hupd2, objGet_objSet_of_ne _ _ _ _ (Ne.symm hne1),
          objGet_objSet_of_ne _ _ _ _ (Ne.symm hne2)]
        exact objGet_foldl_objSet_mem r obj kv.1 kv.2
          (objGet_some_mem r kv.1 kv.2 hv) hnd (hkeys kv.1 hk)
      have hupd_match : pkMatch pv upd2 = true := by
        unfold pkMatch
        rw [List.all_eq_true]
        intro kv hm
        obtain ⟨-, -, hsq⟩ := hpv_mem kv hm
        simp [colVal, hupd_pk kv hm, hsq]
      obtain ⟨hs1, hs2⟩ := firstIdx_set_self (pkMatch pv) s i upd2 hfi
        hupd_match
      refine ⟨s.set i upd2, true, ?_,
        ⟨pv, i, upd2, h, hpk, hs1, hs2, hrh, hupd_hash⟩, ?_⟩
      · unfold upsert
        simp only [hpk, ok_bind, show rowGet r "dwh_hash" =
          Except.ok (Val.vstr h) from by simp [rowGet, hrh], hfi, hget,
          Option.getD_some]
        rw [if_neg hhash]
        simp only [show rowGet r "dwh_valid_from" = Except.ok vf from by
          simp [rowGet, hvf], ok_bind]
        rfl
      · intro r0 hcur0 hd0
        obtain ⟨pv0, i0, obj0, h0, hpk0, hfi0, hget0, hrh0, hoh0⟩ := hcur0
        obtain ⟨hsz, hv0all⟩ := pkExtract_ok_inv pkKeys r0 pv0 hpk0
        obtain ⟨k0, hk0, hdk⟩ := hd0
        obtain ⟨w0, hw0⟩ := Option.isSome_iff_exists.mp (hv0all k0 hk0)
        obtain ⟨v, hv, hsqv⟩ := hself k0 hk0
        have hdvv : Val.sqlEq w0 v = false := hdk w0 v hw0 hv
        have hmem0 : (k0, w0) ∈ pv0 := by
          rw [hsz]
          exact List.mem_map.mpr ⟨k0, hk0, by simp [hw0]⟩
        have hmemv : (k0, v) ∈ pv := by
          rw [hpv]
          exact List.mem_map.mpr ⟨k0, hk0, by simp [hv]⟩
        have hii : i ≠ i0 := by
          intro he
          obtain ⟨objm, hgm, hpm0⟩ := firstIdx_some_inv _ _ _ hfi0
          rw [← he, hget] at hgm
          cases hgm
          have e1 := pkMatch_mem pv obj hpm (k0, v) hmemv
          have e2 := pkMatch_mem pv0 obj hpm0 (k0, w0) hmem0
          have e3 := sqlEq_trans (colVal obj k0) v w0 e1 e2
          rw [sqlEq_symm] at e3
          rw [hdvv] at e3
          simp at e3
        have hcv : colVal upd2 k0 = v := by
          simp [colVal, hupd_pk (k0, v) hmemv]
        have hpm0f : pkMatch pv0 upd2 = false := by
          apply pkMatch_false_of pv0 upd2 (k0, w0) hmem0
          show Val.sqlEq (colVal upd2 k0) w0 = false
          rw [hcv, sqlEq_symm]
          exact hdvv
        obtain ⟨ho1, ho2⟩ := firstIdx_set_other (pkMatch pv0) s i0 i upd2
          hfi0 hii hpm0f
        exact ⟨pv0, i0, obj0, h0, hpk0, ho1, by rw [ho2]; exact hget0,
          hrh0, hoh0⟩

theorem ingestFold_firstRun (pkKeys : List String) (batch : List Obj)
    (s : List Obj) (hgs : ∀ r ∈ batch, GoodRow pkKeys r)
    (hkeys : GoodKeys pkKeys)
    (hdist : batch.Pairwise (PkDistinct pkKeys)) :
    ∃ s1 m, ingestFold pkKeys s batch = Except.ok (s1, batch.length, m) ∧
      (∀ r0, HasCurrent pkKeys s r0 →
        (∀ r2 ∈ batch, PkDistinct pkKeys r0 r2) → HasCurrent pkKeys s1 r0) ∧
      (∀ r ∈ batch, HasCurrent pkKeys s1 r) := by
  induction batch generalizing s with
  | nil => exact ⟨s, 0, rfl, fun r0 h _ => h, by simp⟩
  | cons r rest ih =>
    obtain ⟨hdr, hdrest⟩ := List.pairwise_cons.mp hdist
    obtain ⟨sr, b, hup, hcur, hpres⟩ :=
      upsert_good pkKeys s r (hgs r (by simp)) hkeys
    obtain ⟨s1, m, hfold, hpres1, hall⟩ := ih sr
      (fun r2 hm => hgs r2 (by simp [hm])) hdrest
    refine ⟨s1, m + (if b then 1 else 0), ?_, ?_, ?_⟩
    · unfold ingestFold
      rw [hup]
      show (match ingestFold pkKeys sr rest with
        | Except.error e =>
          (Except.error e : Except UpsertErr (List Obj × Nat × Nat))
        | Except.ok (s2, p, m) =>
          Except.ok (s2, p + 1, m + (if b then 1 else 0))) =
        Except.ok (s1, rest.length + 1, m + (if b then 1 else 0))
      rw [hfold]
    · intro r0 h0 hall0
      exact hpres1 r0 (hpres r0 h0 (hall0 r (by simp)))
        (fun r2 hm => hall0 r2 (by simp [hm]))
    · intro r2 hm
      rcases List.mem_cons.mp hm with rfl | hm2
      · exact hpres1 r2 hcur hdr
      · exact hall r2 hm2

theorem ingestFold_secondRun (pkKeys : List String) (batch : List Obj)
    (s1 : List Obj) (hcur : ∀ r ∈ batch, HasCurrent pkKeys s1 r) :
    ingestFold pkKeys s1 batch = Except.ok (s1, batch.length, 0) := by
  induction batch with
  | nil => rfl
  | cons r rest ih =>
    unfold ingestFold
    rw [upsert_noop_of_current pkKeys s1 r (hcur r (by simp))]
    show (match ingestFold pkKeys s1 rest with
      | Except.error e =>
        (Except.error e : Except UpsertErr (List Obj × Nat × Nat))
      | Except.ok (s2, p, m) =>
        Except.ok (s2, p + 1, m + (if false then 1 else 0))) =
      Except.ok (s1, rest.length + 1, 0)
    rw [ih (fun r2 hm => hcur r2 (by simp [hm]))]
    rfl

/-- C6: the no-change branch of `DWHMixin.upsert` and its consequence.
First conjunct: whenever the store already has a current row for the record
(the first row matching the record's primary-key projection carries the
record's fingerprint), the upsert mutates nothing and reports False.
Second conjunct: draining a batch of well-formed, pairwise key-distinct
records processes every record once (processed count = batch size), and
draining the same unchanged batch a second time from the resulting store
leaves the store untouched, again processes every record (processed count =
batch size), and reports zero modifications. -/
theorem upsert_unmodified_and_idempotent (pkKeys : List String)
    (batch : List Obj) (s : List Obj) (r : Obj)
    (hgs : ∀ r2 ∈ batch, GoodRow pkKeys r2) (hkeys : GoodKeys pkKeys)
    (hdist : batch.Pairwise (PkDistinct pkKeys)) :
    (HasCurrent pkKeys s r → upsert pkKeys s r = Except.ok (s, false)) ∧
    ∃ s1 m, ingestFold pkKeys s batch = Except.ok (s1, batch.length, m) ∧
      ingestFold pkKeys s1 batch = Except.ok (s1, batch.length, 0) := by
  refine ⟨fun hcur => upsert_noop_of_current pkKeys s r hcur, ?_⟩
  obtain ⟨s1, m, hfold, -, hall⟩ :=
    ingestFold_firstRun pkKeys batch s hgs hkeys hdist
  exact ⟨s1, m, hfold, ingestFold_secondRun pkKeys batch s1 hall⟩

/-- A well-formed change-tracked row used in the idempotence witness. -/
def idemRow : Obj :=
  [("id", Val.vint 7), ("name", Val.vstr "x"), ("dwh_hash", Val.vstr "wh"),
   ("dwh_valid_from", Val.vtime 1), ("dwh_modified_at", Val.vtime 1)]

/-- C6 witness. -/
theorem upsert_unmodified_and_idempotent_witness :
    upsert ["id"] [idemRow] idemRow = Except.ok ([idemRow], false) ∧
    (∃ s1 m, ingestFold ["id"] [] [idemRow] = Except.ok (s1, 1, m) ∧
      ingestFold ["id"] s1 [idemRow] = Except.ok (s1, 1, 0)) :=
  have hgs : ∀ r2 ∈ [idemRow], GoodRow ["id"] r2 := by
    intro r2 hm
    simp only [List.mem_singleton] at hm
    subst hm
    refine ⟨by decide, ⟨"wh", rfl⟩, ⟨Val.vtime 1, rfl⟩, ?_⟩
    intro k hk
    simp only [List.mem_singleton] at hk
    subst hk
    exact ⟨Val.vint 7, rfl, by decide⟩
  have hkeys : GoodKeys ["id"] := by
    intro k hk
    simp only [List.mem_singleton] at hk
    subst hk
    decide
  have hdist : ([idemRow] : List Obj).Pairwise (PkDistinct ["id"]) :=
    List.pairwise_singleton _ _
  have hcur : HasCurrent ["id"] [idemRow] idemRow :=
    ⟨[("id", Val.vint 7)], 0, idemRow, "wh", by decide, by decide, rfl, rfl,
      rfl⟩
  ⟨(upsert_unmodified_and_idempotent ["id"] [idemRow] [idemRow] idemRow hgs
      hkeys hdist).1 hcur,
   (upsert_unmodified_and_idempotent ["id"] [idemRow] [] idemRow hgs hkeys
      hdist).2⟩

end F1
